import Mathlib

/-!
Verification of the MindBridge adaptive memory engine (episodic, semantic and
procedural stores, consolidation, and hybrid retrieval).

The Python modules under `mindbridge/memory/` are shallowly embedded here:
dictionaries whose field types matter dynamically are modelled by the `PyVal`
type, floats by `ℚ` (exact arithmetic; the claims under study do not hinge on
binary-float rounding), Python `str.strip`/`str.lower`/regex token extraction
by explicit character-list functions over the ASCII range used by the stores,
and fallible operations by `Option`.  File contents are modelled as the list
of parsed lines (`Option PyVal`, `none` standing for a blank or unparsable
line), and a store rewrite as an `Option` result carrying the content written
(`none` = the file was not touched).  Remote calls (embedding oracle) are a
function parameter plus an explicit call counter.
-/

namespace MindBridge

/-! ### Kernel-computable rational arithmetic

`Rat.add`/`Rat.mul`/`Rat.div` do not reduce inside the kernel, which would
make every concrete evaluation of the embedded code (witnesses and
counterexamples, proved by `decide`/`rfl`) impossible.  The embedding
therefore uses the following operations, each proved equal to the standard
one, so theorem statements can still be phrased with ordinary `+ * /`. -/

/-- Rational addition via `Rat.divInt` (kernel-computable). -/
def qadd (a b : ℚ) : ℚ := Rat.divInt (a.num * b.den + b.num * a.den) (a.den * b.den)

/-- Rational multiplication via `Rat.divInt` (kernel-computable). -/
def qmul (a b : ℚ) : ℚ := Rat.divInt (a.num * b.num) (a.den * b.den)

/-- Rational division via `Rat.divInt` (kernel-computable; division by zero
yields zero, as for `/` on `ℚ`). -/
def qdiv (a b : ℚ) : ℚ := Rat.divInt (a.num * b.den) (a.den * b.num)

/-! ### Python text primitives -/

/-- ASCII whitespace stripped by Python `str.strip()` (the stores only handle
ASCII payloads; the full Unicode whitespace set is not modelled). -/
def isPyWs (c : Char) : Bool :=
  c == ' ' || c == '\t' || c == '\n' || c == '\r' || c == '\x0b' || c == '\x0c'

/-- Python `str.strip()`. -/
def pyStrip (s : String) : String :=
  String.mk (((s.data.dropWhile isPyWs).reverse.dropWhile isPyWs).reverse)

/-- Python `str.rstrip()`. -/
def pyRstrip (s : String) : String :=
  String.mk ((s.data.reverse.dropWhile isPyWs).reverse)

/-- Python `str.lower()` on the ASCII range. -/
def lowerStr (s : String) : String :=
  String.mk (s.data.map Char.toLower)

/-- A character matched by the token pattern `[a-z0-9]+` (after lowering). -/
def isTokChar (c : Char) : Bool :=
  ('a' ≤ c && c ≤ 'z') || ('0' ≤ c && c ≤ '9')

/-- Maximal runs of `[a-z0-9]` characters, i.e. `re.findall("[a-z0-9]+", s)`
on an already lowered character list; `acc` is the current (reversed) run. -/
def tokenizeChars : List Char → List Char → List String
  | [], acc => if acc.isEmpty then [] else [String.mk acc.reverse]
  | c :: cs, acc =>
    if isTokChar c then tokenizeChars cs (c :: acc)
    else if acc.isEmpty then tokenizeChars cs acc
    else String.mk acc.reverse :: tokenizeChars cs []

/-- Model of `_TOKEN_PATTERN.findall(text.lower())`. -/
def tokens (s : String) : List String :=
  tokenizeChars (lowerStr s).data []

/-- Model of `set(_TOKEN_PATTERN.findall(text))` — a token set, represented as a
duplicate-free list (only cardinalities and membership are ever used). -/
def tokenSet (s : String) : List String :=
  (tokens s).dedup

/-- Model of `_token_overlap_ratio`: `|A∩B| / max(|A|,|B|)`, `0` when either side is
empty.  Both arguments are duplicate-free lists. -/
def tokenOverlap (left right : List String) : ℚ :=
  if left.isEmpty || right.isEmpty then 0
  else qdiv ((left.filter (fun t => t ∈ right)).length : ℚ) (max left.length right.length : ℚ)

/-- Whether `a` is a prefix of `b` (character lists). -/
def listPrefixEq : List Char → List Char → Bool
  | [], _ => true
  | _ :: _, [] => false
  | a :: as, b :: bs => a == b && listPrefixEq as bs

/-- Whether `needle` occurs contiguously in the list (the empty needle always does,
matching Python's `"" in s`). -/
def listContainsSub (needle : List Char) : List Char → Bool
  | [] => listPrefixEq needle []
  | c :: rest => listPrefixEq needle (c :: rest) || listContainsSub needle rest

/-- Python's substring test `needle in hay`. -/
def strIn (needle hay : String) : Bool :=
  listContainsSub needle.data hay.data

/-- Model of `_normalize_text`: `" ".join(_WORD_PATTERN.findall(text.lower()))`. -/
def normalizeText (s : String) : String :=
  String.intercalate " " (tokens s)

/-- Model of `_keywords`: tokens of length > 2, as a set. -/
def keywords (s : String) : List String :=
  ((tokens s).filter (fun t => 2 < t.length)).dedup

/-- Python string slice `s[:n]` (by code point). -/
def strTake (s : String) (n : ℕ) : String :=
  String.mk (s.data.take n)

/-! ### Dynamic (Python-level) values -/

/-- A Python runtime value as it appears after `json.loads` (plus `bool`/`int`
distinctions that matter to `isinstance` checks). -/
inductive PyVal where
  | pnone
  | pbool (b : Bool)
  | pint (n : ℤ)
  | pfloat (q : ℚ)
  | pstr (s : String)
  | plist (xs : List PyVal)
  | pdict (fields : List (String × PyVal))

/-- Model of `d.get(key)` — first matching key, `None` when missing or when the value
is not a dict. -/
def PyVal.get : PyVal → String → PyVal
  | .pdict fields, key =>
    match fields.find? (fun f => f.1 == key) with
    | some f => f.2
    | none => .pnone
  | _, _ => .pnone

/-- Value of a digit run (most significant first). -/
def natOfDigits (cs : List Char) : ℕ :=
  cs.foldl (fun a c => a * 10 + (c.toNat - 48)) 0

/-- Unsigned decimal-literal body: digits with an optional single decimal
point and at least one digit somewhere (`"5"`, `"5."`, `".5"`, `"5.25"`). -/
def parseUnsignedDecimal (cs : List Char) : Option ℚ :=
  let ip := cs.takeWhile (fun c => c != '.')
  let rest := cs.dropWhile (fun c => c != '.')
  if !ip.all Char.isDigit then none
  else
    match rest with
    | [] => if ip.isEmpty then none else some ((natOfDigits ip : ℤ) : ℚ)
    | _ :: frac =>
      if !frac.all Char.isDigit then none
      else if ip.isEmpty && frac.isEmpty then none
      else some (Rat.divInt (natOfDigits ip * 10 ^ frac.length + natOfDigits frac)
                            (10 ^ frac.length))

/-- Model of Python `float(s)` on a string: optional sign around a decimal
literal (exponent and special forms are outside the modelled fragment). -/
def parseFloatStr (s : String) : Option ℚ :=
  match s.data with
  | '-' :: rest => (parseUnsignedDecimal rest).map (fun q => Rat.divInt (-q.num) q.den)
  | '+' :: rest => parseUnsignedDecimal rest
  | rest => parseUnsignedDecimal rest

/-- Model of Python `int(s)` on a string: optional sign followed by digits
(`int()` on other shapes of string raises). -/
def parseIntStr (s : String) : Option ℤ :=
  match s.data with
  | '-' :: rest =>
    if rest ≠ [] ∧ rest.all Char.isDigit then some (-(natOfDigits rest : ℤ)) else none
  | '+' :: rest =>
    if rest ≠ [] ∧ rest.all Char.isDigit then some (natOfDigits rest : ℤ) else none
  | rest =>
    if rest ≠ [] ∧ rest.all Char.isDigit then some (natOfDigits rest : ℤ) else none

/-- Rational truncation toward zero, as Python `int()` applied to a float
(T-division of the numerator by the denominator). -/
def ratTrunc (q : ℚ) : ℤ :=
  Int.tdiv q.num (q.den : ℤ)

/-- Python `float(x)`: succeeds on bools, ints, floats and numeric strings. -/
def pyFloat? : PyVal → Option ℚ
  | .pbool b => some (if b then 1 else 0)
  | .pint n => some (n : ℚ)
  | .pfloat q => some q
  | .pstr s => parseFloatStr (pyStrip s)
  | _ => none

/-- Python `int(x)`: succeeds on bools, ints, floats (truncating) and integer
strings. -/
def pyInt? : PyVal → Option ℤ
  | .pbool b => some (if b then 1 else 0)
  | .pint n => some n
  | .pfloat q => some (ratTrunc q)
  | .pstr s => parseIntStr (pyStrip s)
  | _ => none

/-! ### Semantic store (`memory/semantic_store.py`)

The oracle-less path is embedded: `_llm_similarity_decision` with `llm=None`
returns `(_is_similar_rule(existing, incoming), "", "")`, which is the only
path the claims under study exercise. -/

/-- A normalized semantic rule record (the shape `_normalize_rule` produces;
`embedding` is dropped by normalization and so never survives a load). -/
structure SemanticRule where
  rule : String
  context : String
  confidence : ℚ
  derived_from : ℤ
deriving Repr, DecidableEq

/-- Model of `_normalize_rule` on a parsed JSON value. -/
def normalizeRule (v : PyVal) : Option SemanticRule :=
  match v with
  | .pdict _ =>
    match v.get "rule" with
    | .pstr s =>
      if pyStrip s = "" then none
      else
        let ctx := match v.get "context" with
          | .pstr c => c
          | _ => ""
        match pyFloat? (v.get "confidence") with
        | none => none
        | some conf =>
          match pyInt? (v.get "derived_from") with
          | none => none
          | some df =>
            some ⟨pyStrip s, pyStrip ctx, max 0 (min 1 conf), max 0 df⟩
    | _ => none
  | _ => none

/-- Model of `_normalize_rule` restricted to an already well-typed record (the form in
which consolidation and merging re-apply it). -/
def normalizeRuleStruct (r : SemanticRule) : Option SemanticRule :=
  if pyStrip r.rule = "" then none
  else some ⟨pyStrip r.rule, pyStrip r.context,
             max 0 (min 1 r.confidence), max 0 r.derived_from⟩

/-- Model of `_rule_text`: `f"{rule} {context}".strip().lower()`. -/
def ruleText (r : SemanticRule) : String :=
  lowerStr (pyStrip (r.rule ++ " " ++ r.context))

/-- Model of `_is_similar_rule`: exact non-empty text equality, else token overlap
at or above the 0.6 threshold. -/
def isSimilarRule (left right : SemanticRule) : Bool :=
  let lt := ruleText left
  let rt := ruleText right
  (!(lt == "") && lt == rt)
    || decide (Rat.divInt 3 5 ≤ tokenOverlap (tokenSet lt) (tokenSet rt))

/-- Model of `_merge_rule` (with the oracle's canonical fields, empty on the
heuristic path).  Falls back to `existing` if the merged record fails
normalization, exactly as the source does. -/
def mergeRule (existing incoming : SemanticRule)
    (canonicalRule canonicalContext : String) : SemanticRule :=
  let er := pyStrip existing.rule
  let ir := pyStrip incoming.rule
  let mr0 := if pyStrip canonicalRule ≠ "" then pyStrip canonicalRule
             else if er ≠ "" then er else ir
  let mr := if mr0 ≠ "" then mr0 else if ir ≠ "" then ir else er
  let ec := pyStrip existing.context
  let ic := pyStrip incoming.context
  let mc := if pyStrip canonicalContext ≠ "" then pyStrip canonicalContext
            else if ec ≠ "" then ec else ic
  let baseConf := max existing.confidence incoming.confidence
  let baseDf := max existing.derived_from incoming.derived_from
  match normalizeRuleStruct ⟨mr, mc, min 1 (qadd baseConf (Rat.divInt 1 10)), baseDf + 1⟩ with
  | some n => n
  | none => existing

/-- The inner loop of `_consolidate_with_llm`: merge `n` into the first
similar accepted slot (`none` when no slot matches). -/
def mergeFirstSimilar : List SemanticRule → SemanticRule → Option (List SemanticRule)
  | [], _ => none
  | e :: rest, n =>
    if isSimilarRule e n then some (mergeRule e n "" "" :: rest)
    else
      match mergeFirstSimilar rest n with
      | some rest' => some (e :: rest')
      | none => none

/-- Model of `_consolidate_with_llm` (heuristic path), with the accumulated accepted
list made explicit. -/
def consolidateRulesAux (acc : List SemanticRule) : List SemanticRule → List SemanticRule
  | [] => acc
  | r :: rest =>
    match normalizeRuleStruct r with
    | none => consolidateRulesAux acc rest
    | some n =>
      match mergeFirstSimilar acc n with
      | some acc' => consolidateRulesAux acc' rest
      | none => consolidateRulesAux (acc ++ [n]) rest

/-- Model of `_consolidate_with_llm(rules, llm=None)`. -/
def consolidateRules (rules : List SemanticRule) : List SemanticRule :=
  consolidateRulesAux [] rules

/-- The first loop of `_merge_incoming_with_existing`: thread the running
merged rule along the existing slots, recording per-slot whether it matched
(the positional mask stands for the source's `matched_indices` list). -/
def mergeThread (incoming : SemanticRule) : List SemanticRule → SemanticRule × List Bool
  | [] => (incoming, [])
  | e :: rest =>
    if isSimilarRule e incoming then
      let res := mergeThread (mergeRule e incoming "" "") rest
      (res.1, true :: res.2)
    else
      let res := mergeThread incoming rest
      (res.1, false :: res.2)

/-- The rebuild loop of `_merge_incoming_with_existing`: the first matched
slot receives the final merged rule, later matched slots are dropped,
unmatched slots are kept in place (`placed` records whether the first match
has been emitted). -/
def rebuildMerged : List SemanticRule → List Bool → SemanticRule → Bool → List SemanticRule
  | [], _, _, _ => []
  | _ :: _, [], _, _ => []
  | e :: rest, b :: mask, m, placed =>
    if b then
      if placed then rebuildMerged rest mask m placed
      else m :: rebuildMerged rest mask m true
    else e :: rebuildMerged rest mask m placed

/-- Model of `_merge_incoming_with_existing(existing, incoming, llm=None)`. -/
def mergeIncomingWithExisting (existing : List SemanticRule) (incoming : SemanticRule) :
    List SemanticRule :=
  let res := mergeThread incoming existing
  if res.2.all (fun b => !b) then existing ++ [incoming]
  else rebuildMerged existing res.2 res.1 false

/-- Model of `load_semantic_rules` up to JSON parsing: one `Option PyVal` per file
line (`none` = blank or unparsable, skipped silently). -/
def loadSemanticRaw (lines : List (Option PyVal)) : List SemanticRule :=
  lines.filterMap (fun l => l.bind normalizeRule)

/-- Model of `load_semantic_rules` together with its write-back behaviour: the second
component is the content rewritten to the file (`none` = no write).  The
source performs no consolidation and no rewrite on the semantic load path. -/
def loadSemanticFull (lines : List (Option PyVal)) :
    List SemanticRule × Option (List SemanticRule) :=
  (loadSemanticRaw lines, none)

/-- Model of `save_semantic_rule(rule_data, llm=None)` over a file state given as
parsed lines; the result is the content atomically rewritten to the file
(`none` = the save rejected the record and did not touch the file). -/
def saveSemanticRuleWrite (ruleData : PyVal) (lines : List (Option PyVal)) :
    Option (List SemanticRule) :=
  match normalizeRule ruleData with
  | none => none
  | some n =>
    let current := consolidateRules (loadSemanticRaw lines)
    let updated := mergeIncomingWithExisting current n
    some (consolidateRules updated)

/-! ### Procedural store (`memory/procedural_store.py`) -/

/-- A normalized procedural strategy record. -/
structure ProceduralStrategy where
  strategy_name : String
  applicable_context : String
  steps_template : List String
  confidence : ℚ
  derived_from : ℤ
deriving Repr, DecidableEq

/-- The steps loop of `_normalize_strategy`: keep non-blank strings,
stripped; reject (`none`) when the input is not a list or nothing is kept. -/
def normalizeSteps (v : PyVal) : Option (List String) :=
  match v with
  | .plist xs =>
    let kept := xs.filterMap (fun s =>
      match s with
      | .pstr t => if pyStrip t = "" then none else some (pyStrip t)
      | _ => none)
    if kept = [] then none else some kept
  | _ => none

/-- Model of `_normalize_strategy` on a parsed JSON value. -/
def normalizeStrategy (v : PyVal) : Option ProceduralStrategy :=
  match v with
  | .pdict _ =>
    match v.get "strategy_name" with
    | .pstr s =>
      if pyStrip s = "" then none
      else
        let ctx := match v.get "applicable_context" with
          | .pstr c => c
          | _ => ""
        match normalizeSteps (v.get "steps_template") with
        | none => none
        | some steps =>
          match pyFloat? (v.get "confidence") with
          | none => none
          | some conf =>
            match pyInt? (v.get "derived_from") with
            | none => none
            | some df =>
              some ⟨pyStrip s, pyStrip ctx, steps, max 0 (min 1 conf), max 0 df⟩
    | _ => none
  | _ => none

/-- Model of `_normalize_strategy` restricted to an already well-typed record. -/
def normalizeStrategyStruct (st : ProceduralStrategy) : Option ProceduralStrategy :=
  if pyStrip st.strategy_name = "" then none
  else
    let kept := st.steps_template.filterMap (fun t =>
      if pyStrip t = "" then none else some (pyStrip t))
    if kept = [] then none
    else some ⟨pyStrip st.strategy_name, pyStrip st.applicable_context, kept,
               max 0 (min 1 st.confidence), max 0 st.derived_from⟩

/-- Model of `_strategy_text`: name, context and joined steps, stripped and lowered. -/
def strategyText (st : ProceduralStrategy) : String :=
  lowerStr (pyStrip (st.strategy_name ++ " " ++ st.applicable_context ++ " "
    ++ String.intercalate " " st.steps_template))

/-- Model of `_is_similar_strategy`. -/
def isSimilarStrategy (left right : ProceduralStrategy) : Bool :=
  let lt := strategyText left
  let rt := strategyText right
  (!(lt == "") && lt == rt)
    || decide (Rat.divInt 3 5 ≤ tokenOverlap (tokenSet lt) (tokenSet rt))

/-- The steps-union loop of `_merge_strategy`: append incoming steps that are
non-blank after stripping and not already present case-insensitively. -/
def mergeSteps (existingSteps incomingSteps : List String) : List String :=
  incomingSteps.foldl
    (fun acc step =>
      let st := pyStrip step
      if st = "" then acc
      else if (acc.map lowerStr).contains (lowerStr st) then acc
      else acc ++ [st])
    existingSteps

/-- Model of `_merge_strategy`: note that `confidence` and `derived_from` are taken
from `existing` alone (`existing + 0.1` capped, `existing + 1`) — the
incoming record's numeric fields are not consulted. -/
def mergeStrategy (existing incoming : ProceduralStrategy) : ProceduralStrategy :=
  let ctx := if pyStrip existing.applicable_context = ""
                ∧ pyStrip incoming.applicable_context ≠ ""
             then pyStrip incoming.applicable_context
             else existing.applicable_context
  let ms := mergeSteps existing.steps_template incoming.steps_template
  let steps := if ms = [] then existing.steps_template else ms
  ⟨existing.strategy_name, ctx, steps,
   min 1 (qadd existing.confidence (Rat.divInt 1 10)), existing.derived_from + 1⟩

/-- The inner loop of `_consolidate_strategies`. -/
def mergeFirstSimilarStrategy :
    List ProceduralStrategy → ProceduralStrategy → Option (List ProceduralStrategy)
  | [], _ => none
  | e :: rest, n =>
    if isSimilarStrategy e n then some (mergeStrategy e n :: rest)
    else
      match mergeFirstSimilarStrategy rest n with
      | some rest' => some (e :: rest')
      | none => none

/-- Model of `_consolidate_strategies`, with the accepted accumulator explicit. -/
def consolidateStrategiesAux (acc : List ProceduralStrategy) :
    List ProceduralStrategy → List ProceduralStrategy
  | [] => acc
  | r :: rest =>
    match normalizeStrategyStruct r with
    | none => consolidateStrategiesAux acc rest
    | some n =>
      match mergeFirstSimilarStrategy acc n with
      | some acc' => consolidateStrategiesAux acc' rest
      | none => consolidateStrategiesAux (acc ++ [n]) rest

/-- Model of `_consolidate_strategies`. -/
def consolidateStrategies (strategies : List ProceduralStrategy) : List ProceduralStrategy :=
  consolidateStrategiesAux [] strategies

/-- Model of `load_procedural_strategies` up to JSON parsing. -/
def loadProceduralRaw (lines : List (Option PyVal)) : List ProceduralStrategy :=
  lines.filterMap (fun l => l.bind normalizeStrategy)

/-- Model of `load_procedural_strategies` with its write-back: the loaded records are
consolidated and the file is rewritten exactly when consolidation changed
the list. -/
def loadProceduralFull (lines : List (Option PyVal)) :
    List ProceduralStrategy × Option (List ProceduralStrategy) :=
  let loaded := loadProceduralRaw lines
  let consolidated := consolidateStrategies loaded
  (consolidated, if consolidated = loaded then none else some consolidated)

/-- Model of `save_procedural_strategy` over a file state given as parsed lines; the
result is the content rewritten (`none` = record rejected, file untouched). -/
def saveProceduralStrategyWrite (strategyData : PyVal) (lines : List (Option PyVal)) :
    Option (List ProceduralStrategy) :=
  match normalizeStrategy strategyData with
  | none => none
  | some n =>
    let current := (loadProceduralFull lines).1
    some (consolidateStrategies (current ++ [n]))

/-! ### Episodic store and the simple similarity search
(`memory/schema.py`, `memory/retrieval.py`) -/

/-- A `MissionExperience` record as the retrieval layers see it: the
schema-validated fields, plus the raw `attempts` and `embedding` entries of
the underlying JSON object (`attempts` can remain a non-`int` raw value that
pydantic merely validated by coercion, and `embedding` is an optional cached
vector; a missing key is `PyVal.pnone`). -/
structure EpisodicRecord where
  timestamp : String
  intent_task : String
  intent_goal : String
  success : Bool
  attempts : PyVal
  final_plan_summary : String
  failure_reasons : List String
  tools_used : List String
  result_summary : String
  embedding : PyVal

/-- Model of `_similarity_score(exp, task, goal)`. -/
def similarityScore (e : EpisodicRecord) (task goal : String) : ℚ :=
  let tq := normalizeText task
  let gq := normalizeText goal
  let te := normalizeText e.intent_task
  let ge := normalizeText e.intent_goal
  let sTask : ℚ :=
    if tq ≠ "" ∧ tq = te then 4
    else if tq ≠ "" ∧ (strIn tq te ∨ strIn te tq) then 2
    else 0
  let sGoal : ℚ :=
    if gq ≠ "" ∧ gq = ge then 4
    else if gq ≠ "" ∧ (strIn gq ge ∨ strIn ge gq) then 2
    else 0
  let queryTerms := keywords (task ++ " " ++ goal)
  let expTerms := keywords (e.intent_task ++ " " ++ e.intent_goal ++ " " ++ e.result_summary)
  qadd (qadd sTask sGoal) ((queryTerms.filter (fun t => t ∈ expTerms)).length : ℚ)

/-- Stable insertion for a descending sort: `x` goes in front of the first
element it is greater-or-equal to, so equal keys keep their original order —
the behaviour of CPython's stable `list.sort(reverse=True)`. -/
def insertDescBy (ge : α → α → Bool) (x : α) : List α → List α
  | [] => [x]
  | y :: ys => if ge x y then x :: y :: ys else y :: insertDescBy ge x ys

/-- Stable descending sort (model of `list.sort(key=..., reverse=True)`). -/
def sortDescBy (ge : α → α → Bool) : List α → List α
  | [] => []
  | x :: xs => insertDescBy ge x (sortDescBy ge xs)

/-- Descending comparison on the sort key `(score, success, timestamp)` used
by `find_similar_experiences` (tuple comparison, success `True` before
`False`, timestamps as strings). -/
def episodeKeyGe (a b : ℚ × EpisodicRecord) : Bool :=
  if a.1 = b.1 then
    if a.2.success = b.2.success then !decide (a.2.timestamp < b.2.timestamp)
    else a.2.success
  else decide (b.1 < a.1)

/-- Model of `find_similar_experiences(task, goal, limit)` over the loaded records. -/
def findSimilarExperiences (exps : List EpisodicRecord) (task goal : String)
    (limit : ℤ) : List EpisodicRecord :=
  if limit ≤ 0 then []
  else
    let scored := (exps.map (fun e => (similarityScore e task goal, e))).filter
      (fun p => !decide (p.1 ≤ 0))
    let sorted := sortDescBy episodeKeyGe scored
    (sorted.take limit.toNat).map (fun p => p.2)

/-! ### Hybrid retrieval (`memory/hybrid_retrieval.py`)

`compute_cosine_similarity` computes a real-valued cosine (via `math.sqrt`);
the ranking claims hold for an arbitrary similarity function, so it is a
parameter `cos` of every definition.  The embedding provider is a parameter
`oracle : String → Option (List ℚ)` (`none` = the remote call raised), and
each definition additionally returns how many remote calls it made. -/

/-- One item of `_normalize_embedding`'s loop: `float(item)` when
`isinstance(item, (int, float))` (which admits bools), else a rejection. -/
def embeddingItem : PyVal → Option ℚ
  | .pint n => some (n : ℚ)
  | .pfloat q => some q
  | .pbool b => some (if b then 1 else 0)
  | _ => none

/-- Collect embedding items, rejecting the whole vector on the first
non-numeric entry. -/
def embeddingItems : List PyVal → Option (List ℚ)
  | [] => some []
  | x :: xs =>
    match embeddingItem x with
    | none => none
    | some q =>
      match embeddingItems xs with
      | none => none
      | some rest => some (q :: rest)

/-- Model of `_normalize_embedding`: a non-empty list whose entries are all numbers. -/
def normalizeEmbedding (v : PyVal) : Option (List ℚ) :=
  match v with
  | .plist xs =>
    if xs.isEmpty then none
    else
      match embeddingItems xs with
      | none => none
      | some vec => if vec.isEmpty then none else some vec
  | _ => none

/-- Model of `embed_text`: empty payload short-circuits to `[]` with no remote call;
otherwise one call is made. -/
def embedCall (oracle : String → Option (List ℚ)) (text : String) :
    Option (List ℚ) × ℕ :=
  let payload := pyStrip text
  if payload = "" then (some [], 0) else (oracle payload, 1)

/-- Model of `_ensure_embedding`: reuse a valid cached vector, else call the embedder;
a raised call degrades to the empty vector.  Returns the vector, the
`updated` flag and the number of remote calls. -/
def ensureEmbedding (oracle : String → Option (List ℚ)) (cached : PyVal)
    (text : String) : List ℚ × Bool × ℕ :=
  match normalizeEmbedding cached with
  | some v => (v, false, 0)
  | none =>
    match embedCall oracle text with
    | (none, n) => ([], false, n)
    | (some v, n) => (v, true, n)

/-- A retrieval candidate before ranking (the `data` back-reference of the
source dict is not modelled; it never influences ranking). -/
structure Candidate where
  memory_type : String
  confidence : ℚ
  derived_from : ℤ
  similarity_score : ℚ
  summary : String
deriving Repr, DecidableEq

/-- A ranked candidate. -/
structure RankedCandidate where
  base : Candidate
  rank_score : ℚ
  derived_from_normalized : ℚ
deriving Repr, DecidableEq

/-- Model of `_semantic_embedding_text`. -/
def semanticEmbeddingText (r : SemanticRule) : String :=
  pyStrip (r.rule ++ " " ++ r.context)

/-- Model of `_procedural_embedding_text`. -/
def proceduralEmbeddingText (st : ProceduralStrategy) : String :=
  pyStrip (st.strategy_name ++ " " ++ st.applicable_context ++ " "
    ++ String.intercalate " " st.steps_template)

/-- Model of `_episodic_embedding_text`. -/
def episodicEmbeddingText (e : EpisodicRecord) : String :=
  pyStrip ("task: " ++ e.intent_task ++ " goal: " ++ e.intent_goal
    ++ " plan: " ++ e.final_plan_summary ++ " result: " ++ e.result_summary)

/-- Model of `int(record.get("attempts", 0)) if isinstance(..., int) else 0` —
Python's `isinstance(x, int)` also accepts bools. -/
def attemptsAsInt : PyVal → ℤ
  | .pint n => n
  | .pbool b => if b then 1 else 0
  | _ => 0

/-- Model of `_semantic_candidates` over loaded rules (which carry no cached
embedding: `_normalize_rule` drops the `embedding` key). -/
def semanticCandidates (cos : List ℚ → List ℚ → ℚ) (oracle : String → Option (List ℚ))
    (qe : List ℚ) (rules : List SemanticRule) : List Candidate × ℕ :=
  rules.foldl
    (fun acc r =>
      let text := semanticEmbeddingText r
      let res := ensureEmbedding oracle .pnone text
      (acc.1 ++ [⟨"semantic", r.confidence, max 0 r.derived_from, cos qe res.1, text⟩],
       acc.2 + res.2.2))
    ([], 0)

/-- Model of `_procedural_candidates` over loaded strategies. -/
def proceduralCandidates (cos : List ℚ → List ℚ → ℚ) (oracle : String → Option (List ℚ))
    (qe : List ℚ) (strategies : List ProceduralStrategy) : List Candidate × ℕ :=
  strategies.foldl
    (fun acc st =>
      let text := proceduralEmbeddingText st
      let res := ensureEmbedding oracle .pnone text
      (acc.1 ++ [⟨"procedural", st.confidence, max 0 st.derived_from, cos qe res.1, text⟩],
       acc.2 + res.2.2))
    ([], 0)

/-- Model of `_episodic_candidates` over loaded records (episodic records may carry a
cached embedding). -/
def episodicCandidates (cos : List ℚ → List ℚ → ℚ) (oracle : String → Option (List ℚ))
    (qe : List ℚ) (records : List EpisodicRecord) : List Candidate × ℕ :=
  records.foldl
    (fun acc e =>
      let text := episodicEmbeddingText e
      let res := ensureEmbedding oracle e.embedding text
      let conf : ℚ := if e.success then Rat.divInt 9 10 else Rat.divInt 4 10
      (acc.1 ++ [⟨"episodic", conf, max 0 (attemptsAsInt e.attempts), cos qe res.1, text⟩],
       acc.2 + res.2.2))
    ([], 0)

/-- Model of `max((int(item.get("derived_from", 0)) for item in combined), default=1)`. -/
def maxDerivedOf : List Candidate → ℤ
  | [] => 1
  | c :: cs => cs.foldl (fun m d => max m d.derived_from) c.derived_from

/-- Descending comparison on `rank_score` (sort key of the final sort). -/
def rankGe (a b : RankedCandidate) : Bool :=
  decide (b.rank_score ≤ a.rank_score)

/-- Model of `retrieve_relevant_memory(task, goal, top_k)` over the loaded store
contents, also returning the number of remote embedding calls made. -/
def retrieveRelevantMemory (cos : List ℚ → List ℚ → ℚ)
    (oracle : String → Option (List ℚ))
    (sem : List SemanticRule) (proc : List ProceduralStrategy)
    (epi : List EpisodicRecord) (task goal : String) (topK : ℤ) :
    List RankedCandidate × ℕ :=
  if topK ≤ 0 then ([], 0)
  else
    let queryText := pyStrip (pyStrip task ++ " " ++ pyStrip goal)
    if queryText = "" then ([], 0)
    else
      match embedCall oracle queryText with
      | (none, n) => ([], n)
      | (some qe, n) =>
        if qe = [] then ([], n)
        else
          let semRes := semanticCandidates cos oracle qe sem
          let procRes := proceduralCandidates cos oracle qe proc
          let epiRes := episodicCandidates cos oracle qe epi
          let combined := semRes.1 ++ procRes.1 ++ epiRes.1
          let calls := n + semRes.2 + procRes.2 + epiRes.2
          if combined = [] then ([], calls)
          else
            let maxD0 := maxDerivedOf combined
            let maxD := if maxD0 ≤ 0 then 1 else maxD0
            let ranked := combined.map (fun c =>
              let dn : ℚ := qdiv (c.derived_from : ℚ) (maxD : ℚ)
              ⟨c, qadd (qadd (qmul c.similarity_score (Rat.divInt 7 10))
                             (qmul c.confidence (Rat.divInt 2 10)))
                       (qmul dn (Rat.divInt 1 10)), dn⟩)
            ((sortDescBy rankGe ranked).take topK.toNat, calls)

/-! ### Semantic extractor normalization (`memory/semantic_extractor.py`) -/

/-- The extractor's `_normalize_rule(rule_data, derived_from_default)`: like
the store's, but truncating rule text to 200 characters, and falling back to
the default (the mission's attempt count) when `derived_from` is missing or
uncoercible, without clamping it to be non-negative. -/
def extractorNormalizeRule (v : PyVal) (derivedFromDefault : ℤ) : Option SemanticRule :=
  match v with
  | .pdict _ =>
    match v.get "rule" with
    | .pstr s =>
      if pyStrip s = "" then none
      else
        let ctx := match v.get "context" with
          | .pstr c => c
          | _ => ""
        match pyFloat? (v.get "confidence") with
        | none => none
        | some conf =>
          let df := (pyInt? (v.get "derived_from")).getD derivedFromDefault
          let ruleText0 := pyStrip s
          let ruleText1 := if 200 < ruleText0.length
                           then pyRstrip (strTake ruleText0 200) else ruleText0
          some ⟨ruleText1, pyStrip ctx, max 0 (min 1 conf), df⟩
    | _ => none
  | _ => none

/-! ### Spec-side reconstructions (phrased after the specification's words,
for the refinement claims; to be compared with the source-translated
definitions above) -/

/-- Spec side of the semantic save fold: fold the running merged rule through
every remaining similar slot, collecting the unmatched survivors in order;
returns the final merged rule, the survivors and whether anything matched. -/
def foldAllMatches : List SemanticRule → SemanticRule → SemanticRule × List SemanticRule × Bool
  | [], inc => (inc, [], false)
  | e :: rest, inc =>
    if isSimilarRule e inc then
      let res := foldAllMatches rest (mergeRule e inc "" "")
      (res.1, res.2.1, true)
    else
      let res := foldAllMatches rest inc
      (res.1, e :: res.2.1, res.2.2)

/-- Spec side of `_merge_incoming_with_existing`: the incoming rule is merged
into every matching slot, all matches collapse into the position of the first
match, and a non-matching incoming rule is appended. -/
def semanticSaveFoldSpec : List SemanticRule → SemanticRule → List SemanticRule
  | [], inc => [inc]
  | e :: rest, inc =>
    if isSimilarRule e inc then
      let res := foldAllMatches rest (mergeRule e inc "" "")
      res.1 :: res.2.1
    else e :: semanticSaveFoldSpec rest inc

/-- Spec side of the procedural save: merge the incoming strategy into the
first matching slot only, else append it. -/
def mergeFirstSimilarStrategySpec :
    List ProceduralStrategy → ProceduralStrategy → List ProceduralStrategy
  | [], n => [n]
  | e :: rest, n =>
    if isSimilarStrategy e n then mergeStrategy e n :: rest
    else e :: mergeFirstSimilarStrategySpec rest n

/-- The episodic per-component score exactly as the claim words it: 4 for an
exact normalized match, 2 for a substring relation (no non-empty guard). -/
def claimedComponentScore (q r : String) : ℚ :=
  if q = r then 4 else if strIn q r ∨ strIn r q then 2 else 0

/-- The episodic score exactly as the claim words it. -/
def claimedSimilarityScore (e : EpisodicRecord) (task goal : String) : ℚ :=
  qadd (qadd (claimedComponentScore (normalizeText task) (normalizeText e.intent_task))
             (claimedComponentScore (normalizeText goal) (normalizeText e.intent_goal)))
       (((keywords (task ++ " " ++ goal)).filter
          (fun t => t ∈ keywords (e.intent_task ++ " " ++ e.intent_goal ++ " "
            ++ e.result_summary))).length : ℚ)

/-- The episodic search exactly as the claim words it: score each record,
exclude score ≤ 0, order by score desc / success / timestamp desc, truncate. -/
def claimedFindSimilar (exps : List EpisodicRecord) (task goal : String)
    (limit : ℤ) : List EpisodicRecord :=
  let scored := (exps.map (fun e => (claimedSimilarityScore e task goal, e))).filter
    (fun p => !decide (p.1 ≤ 0))
  ((sortDescBy episodeKeyGe scored).take limit.toNat).map (fun p => p.2)

/-- The amended per-component score: as claimed, but a component is awarded
only when the query's normalized text is non-empty. -/
def amendedComponentScore (q r : String) : ℚ :=
  if q = "" then 0
  else if q = r then 4
  else if strIn q r ∨ strIn r q then 2 else 0

/-- The amended episodic score. -/
def amendedSimilarityScore (e : EpisodicRecord) (task goal : String) : ℚ :=
  qadd (qadd (amendedComponentScore (normalizeText task) (normalizeText e.intent_task))
             (amendedComponentScore (normalizeText goal) (normalizeText e.intent_goal)))
       (((keywords (task ++ " " ++ goal)).filter
          (fun t => t ∈ keywords (e.intent_task ++ " " ++ e.intent_goal ++ " "
            ++ e.result_summary))).length : ℚ)

/-- The amended episodic search. -/
def amendedFindSimilar (exps : List EpisodicRecord) (task goal : String)
    (limit : ℤ) : List EpisodicRecord :=
  let scored := (exps.map (fun e => (amendedSimilarityScore e task goal, e))).filter
    (fun p => !decide (p.1 ≤ 0))
  ((sortDescBy episodeKeyGe scored).take limit.toNat).map (fun p => p.2)

/-- Spec side of the ranking divisor: the maximum `derived_from` over all
candidates (all of which are clamped non-negative). -/
def maxDerivedSpec (l : List Candidate) : ℤ :=
  (l.map (fun c => c.derived_from)).foldr max 0

/-! ### Concrete records used by witnesses and counterexamples -/

/-- A well-formed semantic rule line. -/
def c2RuleDict : PyVal :=
  .pdict [("rule", .pstr "always validate inputs"), ("context", .pstr ""),
          ("confidence", .pfloat (Rat.divInt 1 2)), ("derived_from", .pint 1)]

/-- The record `c2RuleDict` normalizes to. -/
def c2Rule : SemanticRule := ⟨"always validate inputs", "", Rat.divInt 1 2, 1⟩

/-- A well-formed procedural strategy line. -/
def c2StratDict : PyVal :=
  .pdict [("strategy_name", .pstr "retry with backoff"),
          ("applicable_context", .pstr "network"),
          ("steps_template", .plist [.pstr "wait", .pstr "retry"]),
          ("confidence", .pfloat (Rat.divInt 1 2)), ("derived_from", .pint 1)]

/-- The result of merging the strategy of `c2StratDict` with itself. -/
def c2StratMerged : ProceduralStrategy :=
  ⟨"retry with backoff", "network", ["wait", "retry"], Rat.divInt 3 5, 2⟩

/-- C5 counterexample data: `c5A` and `c5B` are dissimilar (overlap 2/5),
`c5C` is similar to `c5A` (overlap 3/5); merging `c5C` into `c5A` makes the
slot adopt `c5C`'s context, whose text is then similar to `c5B` (overlap 4/5). -/
def c5A : SemanticRule := ⟨"x y z", "", Rat.divInt 1 2, 1⟩

/-- See `c5A`. -/
def c5B : SemanticRule := ⟨"x y p q r", "", Rat.divInt 1 2, 1⟩

/-- See `c5A`. -/
def c5C : SemanticRule := ⟨"x y z", "p q", Rat.divInt 1 2, 1⟩

/-- A rule line whose confidence cannot be coerced to a number. -/
def c8BadRule : PyVal :=
  .pdict [("rule", .pstr "ok"), ("confidence", .pstr "not a number"),
          ("derived_from", .pint 1)]

/-- A strategy line whose steps are effectively empty. -/
def c8BadStrat : PyVal :=
  .pdict [("strategy_name", .pstr "ok"), ("steps_template", .plist [.pstr "  "]),
          ("confidence", .pfloat (Rat.divInt 1 2)), ("derived_from", .pint 1)]

/-- A valid rule line whose rule text is 201 characters long. -/
def c9LongRule : PyVal :=
  .pdict [("rule", .pstr (String.mk (List.replicate 201 'a'))),
          ("context", .pstr ""),
          ("confidence", .pfloat (Rat.divInt 1 2)), ("derived_from", .pint 1)]

/-- An extractor item with no `derived_from` key (the default applies). -/
def c9ExtractDict : PyVal :=
  .pdict [("rule", .pstr "keep inputs clean"),
          ("confidence", .pfloat (Rat.divInt 1 2))]

/-- An episodic record whose task, goal and result are all empty. -/
def c7Empty : EpisodicRecord :=
  ⟨"2024-01-01T00:00:00", "", "", true, .pint 1, "", [], [], "", .pnone⟩

/-- An episodic record with three attempts. -/
def c10Rec : EpisodicRecord :=
  ⟨"2024-01-01T00:00:00", "t", "g", true, .pint 3, "p", [], [], "r", .pnone⟩

/-- The candidate `c10Rec` produces under a zero similarity function and a
raising embedding oracle. -/
def c10Cand : Candidate :=
  ⟨"episodic", Rat.divInt 9 10, 3, 0, "task: t goal: g plan: p result: r"⟩

/-! ### Helper lemmas -/

theorem qadd_eq (a b : ℚ) : qadd a b = a + b := by
  have hda : (a.den : ℤ) ≠ 0 := by exact_mod_cast a.den_nz
  have hdb : (b.den : ℤ) ≠ 0 := by exact_mod_cast b.den_nz
  calc qadd a b
      = Rat.divInt (a.num * b.den + b.num * a.den) (a.den * b.den) := rfl
    _ = Rat.divInt a.num a.den + Rat.divInt b.num b.den :=
        (Rat.divInt_add_divInt _ _ hda hdb).symm
    _ = a + b := by rw [Rat.num_divInt_den, Rat.num_divInt_den]

theorem qmul_eq (a b : ℚ) : qmul a b = a * b := by
  calc qmul a b
      = Rat.divInt (a.num * b.num) (a.den * b.den) := rfl
    _ = Rat.divInt a.num a.den * Rat.divInt b.num b.den :=
        (Rat.divInt_mul_divInt' _ _ _ _).symm
    _ = a * b := by rw [Rat.num_divInt_den, Rat.num_divInt_den]

theorem qdiv_eq (a b : ℚ) : qdiv a b = a / b := by
  calc qdiv a b
      = Rat.divInt (a.num * b.den) (a.den * b.num) := rfl
    _ = Rat.divInt a.num a.den * Rat.divInt b.den b.num :=
        (Rat.divInt_mul_divInt' _ _ _ _).symm
    _ = a * b⁻¹ := by rw [Rat.num_divInt_den, Rat.inv_def']
    _ = a / b := (div_eq_mul_inv a b).symm

/-- Unpack `normalizeRuleStruct r = some r` (a self-normalized record). -/
theorem normalizeRuleStruct_self {r : SemanticRule} (h : normalizeRuleStruct r = some r) :
    pyStrip r.rule = r.rule ∧ pyStrip r.rule ≠ "" ∧ pyStrip r.context = r.context ∧
    0 ≤ r.confidence ∧ r.confidence ≤ 1 ∧ 0 ≤ r.derived_from := by
  obtain ⟨rule, ctx, conf, df⟩ := r
  unfold normalizeRuleStruct at h
  by_cases hne : pyStrip rule = ""
  · rw [if_pos hne] at h
    cases h
  · rw [if_neg hne] at h
    obtain ⟨h1, h2, h3, h4⟩ := (SemanticRule.mk.injEq ..).mp (Option.some.inj h)
    refine ⟨h1, by simpa [h1] using hne, h2, ?_, ?_, ?_⟩
    · calc (0 : ℚ) ≤ max 0 (min 1 conf) := le_max_left _ _
        _ = conf := h3
    · calc conf = max 0 (min 1 conf) := h3.symm
        _ ≤ 1 := max_le (by norm_num) (min_le_left _ _)
    · calc (0 : ℤ) ≤ max 0 df := le_max_left _ _
        _ = df := h4

theorem divInt_one_ten : (Rat.divInt 1 10 : ℚ) = 1/10 := by
  rw [Rat.divInt_eq_div]
  norm_num

/-! ### Claim C1 -/

/-- C1, counterexample: in the procedural store, merging an incoming strategy
with confidence 4/5 and derived_from 5 into an existing one with confidence
1/5 and derived_from 0 yields confidence 3/10 ≠ min(1, max(1/5,4/5)+0.1) =
9/10 and derived_from 1 ≠ max(0,5)+1 = 6 — the procedural merge ignores the
incoming record's numeric fields. -/
theorem C1_counterexample :
    (mergeStrategy ⟨"n", "c", ["s"], Rat.divInt 1 5, 0⟩
                   ⟨"n", "c", ["s"], Rat.divInt 4 5, 5⟩).confidence
        ≠ min 1 (max (Rat.divInt 1 5) (Rat.divInt 4 5) + 1/10) ∧
    (mergeStrategy ⟨"n", "c", ["s"], Rat.divInt 1 5, 0⟩
                   ⟨"n", "c", ["s"], Rat.divInt 4 5, 5⟩).derived_from
        ≠ max (0 : ℤ) 5 + 1 := by
  constructor
  · have h1 : (mergeStrategy ⟨"n", "c", ["s"], Rat.divInt 1 5, 0⟩
        ⟨"n", "c", ["s"], Rat.divInt 4 5, 5⟩).confidence = Rat.divInt 3 10 := by decide
    have h2 : min 1 (max (Rat.divInt 1 5) (Rat.divInt 4 5) + 1/10) = Rat.divInt 9 10 := by
      rw [Rat.divInt_eq_div, Rat.divInt_eq_div, Rat.divInt_eq_div]
      norm_num
    rw [h1, h2]
    decide
  · have h1 : (mergeStrategy ⟨"n", "c", ["s"], Rat.divInt 1 5, 0⟩
        ⟨"n", "c", ["s"], Rat.divInt 4 5, 5⟩).derived_from = 1 := by decide
    rw [h1]
    decide

/-- C1, amended: for self-normalized records, the semantic merge sets
`confidence = min(1, max(existing, incoming) + 0.1)` and
`derived_from = max(existing, incoming) + 1`, while the procedural merge
uses only the existing record: `confidence = min(1, existing + 0.1)` and
`derived_from = existing + 1`, ignoring the incoming record's numeric
fields. -/
theorem C1_theorem (e i : SemanticRule) (es is' : ProceduralStrategy)
    (he : normalizeRuleStruct e = some e) (hi : normalizeRuleStruct i = some i) :
    (mergeRule e i "" "").confidence = min 1 (max e.confidence i.confidence + 1/10) ∧
    (mergeRule e i "" "").derived_from = max e.derived_from i.derived_from + 1 ∧
    (mergeStrategy es is').confidence = min 1 (es.confidence + 1/10) ∧
    (mergeStrategy es is').derived_from = es.derived_from + 1 := by
  obtain ⟨he1, he2, he3, he4, he5, he6⟩ := normalizeRuleStruct_self he
  obtain ⟨hi1, hi2, hi3, hi4, hi5, hi6⟩ := normalizeRuleStruct_self hi
  have hps : pyStrip "" = "" := rfl
  have hmain : mergeRule e i "" "" =
      ⟨e.rule,
       pyStrip (if pyStrip e.context ≠ "" then pyStrip e.context else pyStrip i.context),
       max 0 (min 1 (min 1 (qadd (max e.confidence i.confidence) (Rat.divInt 1 10)))),
       max 0 (max e.derived_from i.derived_from + 1)⟩ := by
    unfold mergeRule normalizeRuleStruct
    have he2' : ¬ (e.rule = "") := by simpa [he1] using he2
    simp only [hps, ne_eq, not_true_eq_false, if_false, he1, he2', not_false_eq_true,
      if_true, ite_true, ite_false]
  constructor
  · rw [hmain]
    show max 0 (min 1 (min 1 (qadd (max e.confidence i.confidence) (Rat.divInt 1 10))))
        = min 1 (max e.confidence i.confidence + 1/10)
    rw [qadd_eq, divInt_one_ten, ← min_assoc, min_self]
    have hy : (0 : ℚ) ≤ max e.confidence i.confidence + 1/10 := by
      have := le_max_left e.confidence i.confidence
      nlinarith [he4]
    exact max_eq_right (le_min (by norm_num) hy)
  refine ⟨?_, ?_, ?_⟩
  · rw [hmain]
    show max 0 (max e.derived_from i.derived_from + 1)
        = max e.derived_from i.derived_from + 1
    omega
  · show min 1 (qadd es.confidence (Rat.divInt 1 10)) = min 1 (es.confidence + 1/10)
    rw [qadd_eq, divInt_one_ten]
  · rfl

/-- C1, witness: the amended theorem applied at concrete records. -/
theorem C1_witness :
    normalizeRuleStruct ⟨"be careful", "always", Rat.divInt 1 2, 2⟩
        = some ⟨"be careful", "always", Rat.divInt 1 2, 2⟩ ∧
    normalizeRuleStruct ⟨"validate input", "", Rat.divInt 3 4, 0⟩
        = some ⟨"validate input", "", Rat.divInt 3 4, 0⟩ ∧
    ((mergeRule ⟨"be careful", "always", Rat.divInt 1 2, 2⟩
               ⟨"validate input", "", Rat.divInt 3 4, 0⟩ "" "").confidence
        = min 1 (max (Rat.divInt 1 2) (Rat.divInt 3 4) + 1/10) ∧
     (mergeRule ⟨"be careful", "always", Rat.divInt 1 2, 2⟩
               ⟨"validate input", "", Rat.divInt 3 4, 0⟩ "" "").derived_from
        = max (2 : ℤ) 0 + 1 ∧
     (mergeStrategy ⟨"plan", "tasks", ["think"], Rat.divInt 1 2, 3⟩
                    ⟨"plan", "tasks", ["act"], Rat.divInt 1 4, 7⟩).confidence
        = min 1 (Rat.divInt 1 2 + 1/10) ∧
     (mergeStrategy ⟨"plan", "tasks", ["think"], Rat.divInt 1 2, 3⟩
                    ⟨"plan", "tasks", ["act"], Rat.divInt 1 4, 7⟩).derived_from
        = (3 : ℤ) + 1) :=
  ⟨by decide, by decide,
   C1_theorem ⟨"be careful", "always", Rat.divInt 1 2, 2⟩
     ⟨"validate input", "", Rat.divInt 3 4, 0⟩
     ⟨"plan", "tasks", ["think"], Rat.divInt 1 2, 3⟩
     ⟨"plan", "tasks", ["act"], Rat.divInt 1 4, 7⟩
     (by decide) (by decide)⟩

/-! ### Claim C2 -/

/-- C2, counterexample: loading a semantic file holding the same valid rule
on two lines returns both copies and performs no write-back, even though
consolidation would have merged them — the semantic load neither
consolidates nor rewrites (only the procedural load does). -/
theorem C2_counterexample :
    loadSemanticFull [some c2RuleDict, some c2RuleDict] = ([c2Rule, c2Rule], none) ∧
    consolidateRules [c2Rule, c2Rule] ≠ [c2Rule, c2Rule] := by
  constructor
  · decide
  · decide

/-- C2, amended: the procedural store's load consolidates the loaded records
and writes the consolidated set back iff consolidation changed the list
(the written content being exactly the consolidated set); the semantic
store's load only skips invalid lines and returns the records unconsolidated,
never writing back. -/
theorem C2_theorem (lines : List (Option PyVal)) :
    (loadProceduralFull lines).1 = consolidateStrategies (loadProceduralRaw lines) ∧
    ((loadProceduralFull lines).2 ≠ none ↔
      consolidateStrategies (loadProceduralRaw lines) ≠ loadProceduralRaw lines) ∧
    (∀ w, (loadProceduralFull lines).2 = some w →
      w = consolidateStrategies (loadProceduralRaw lines)) ∧
    (loadSemanticFull lines).1 = loadSemanticRaw lines ∧
    (loadSemanticFull lines).2 = none := by
  unfold loadProceduralFull loadSemanticFull
  refine ⟨rfl, ?_, ?_, rfl, rfl⟩
  · by_cases h : consolidateStrategies (loadProceduralRaw lines) = loadProceduralRaw lines
    · simp [h]
    · simp [h]
  · intro w hw
    by_cases h : consolidateStrategies (loadProceduralRaw lines) = loadProceduralRaw lines
    · simp [h] at hw
    · simp only [h, if_false, ite_false] at hw
      exact (Option.some.inj hw).symm

/-- C2, witness: a procedural file with a duplicated strategy line triggers a
write-back whose content is the consolidated set. -/
theorem C2_witness :
    (loadProceduralFull [some c2StratDict, some c2StratDict]).2 = some [c2StratMerged] ∧
    [c2StratMerged] = consolidateStrategies (loadProceduralRaw [some c2StratDict, some c2StratDict]) :=
  ⟨by decide,
   (C2_theorem [some c2StratDict, some c2StratDict]).2.2.1 [c2StratMerged] (by decide)⟩

/-! ### Claim C5 -/

theorem mergeFirstSimilar_eq_none {l : List SemanticRule} {n : SemanticRule}
    (h : ∀ e ∈ l, isSimilarRule e n = false) : mergeFirstSimilar l n = none := by
  induction l with
  | nil => rfl
  | cons e rest ih =>
    unfold mergeFirstSimilar
    rw [h e (List.mem_cons_self e rest),
        ih (fun x hx => h x (List.mem_cons_of_mem e hx))]
    simp

theorem consolidateRulesAux_fix (Z : List SemanticRule)
    (hnorm : ∀ r ∈ Z, normalizeRuleStruct r = some r)
    (hpw : List.Pairwise (fun a b => isSimilarRule a b = false) Z) :
    ∀ acc, (∀ e ∈ acc, ∀ z ∈ Z, isSimilarRule e z = false) →
      consolidateRulesAux acc Z = acc ++ Z := by
  induction Z with
  | nil => intro acc _; simp [consolidateRulesAux]
  | cons z rest ih =>
    intro acc hacc
    have hz := hnorm z (List.mem_cons_self z rest)
    have hnone : mergeFirstSimilar acc z =
        none := mergeFirstSimilar_eq_none
          (fun e he => hacc e he z (List.mem_cons_self z rest))
    unfold consolidateRulesAux
    simp only [hz, hnone]
    rw [ih (fun r hr => hnorm r (List.mem_cons_of_mem z hr)) hpw.tail (acc ++ [z]) ?_]
    · simp
    · intro e he r hr
      rcases List.mem_append.mp he with he' | he'
      · exact hacc e he' r (List.mem_cons_of_mem z hr)
      · have : e = z := by simpa using he'
        subst this
        exact List.rel_of_pairwise_cons hpw hr

theorem consolidateRules_fix {Z : List SemanticRule}
    (hnorm : ∀ r ∈ Z, normalizeRuleStruct r = some r)
    (hpw : List.Pairwise (fun a b => isSimilarRule a b = false) Z) :
    consolidateRules Z = Z := by
  simpa using consolidateRulesAux_fix Z hnorm hpw [] (by simp)

theorem mergeFirstSimilarStrategy_eq_none {l : List ProceduralStrategy}
    {n : ProceduralStrategy}
    (h : ∀ e ∈ l, isSimilarStrategy e n = false) :
    mergeFirstSimilarStrategy l n = none := by
  induction l with
  | nil => rfl
  | cons e rest ih =>
    unfold mergeFirstSimilarStrategy
    rw [h e (List.mem_cons_self e rest),
        ih (fun x hx => h x (List.mem_cons_of_mem e hx))]
    simp

theorem consolidateStrategiesAux_fix (Z : List ProceduralStrategy)
    (hnorm : ∀ r ∈ Z, normalizeStrategyStruct r = some r)
    (hpw : List.Pairwise (fun a b => isSimilarStrategy a b = false) Z) :
    ∀ acc, (∀ e ∈ acc, ∀ z ∈ Z, isSimilarStrategy e z = false) →
      consolidateStrategiesAux acc Z = acc ++ Z := by
  induction Z with
  | nil => intro acc _; simp [consolidateStrategiesAux]
  | cons z rest ih =>
    intro acc hacc
    have hz := hnorm z (List.mem_cons_self z rest)
    have hnone : mergeFirstSimilarStrategy acc z =
        none := mergeFirstSimilarStrategy_eq_none
          (fun e he => hacc e he z (List.mem_cons_self z rest))
    unfold consolidateStrategiesAux
    simp only [hz, hnone]
    rw [ih (fun r hr => hnorm r (List.mem_cons_of_mem z hr)) hpw.tail (acc ++ [z]) ?_]
    · simp
    · intro e he r hr
      rcases List.mem_append.mp he with he' | he'
      · exact hacc e he' r (List.mem_cons_of_mem z hr)
      · have : e = z := by simpa using he'
        subst this
        exact List.rel_of_pairwise_cons hpw hr

theorem consolidateStrategies_fix {Z : List ProceduralStrategy}
    (hnorm : ∀ r ∈ Z, normalizeStrategyStruct r = some r)
    (hpw : List.Pairwise (fun a b => isSimilarStrategy a b = false) Z) :
    consolidateStrategies Z = Z := by
  simpa using consolidateStrategiesAux_fix Z hnorm hpw [] (by simp)

set_option maxRecDepth 100000 in
/-- C5, counterexample: consolidating `[c5A, c5B, c5C]` merges `c5C` into
`c5A`'s slot, whose text thereby becomes similar to the already accepted
`c5B`, so a second consolidation merges again — consolidation is not
idempotent. -/
theorem C5_counterexample :
    consolidateRules (consolidateRules [c5A, c5B, c5C])
      ≠ consolidateRules [c5A, c5B, c5C] := by
  decide

/-- C5, amended: consolidation is idempotent on any record list whose
consolidated output is self-normalized and pairwise dissimilar; in general a
merge may change a slot's similarity text (context adoption, steps union),
after which a second consolidation can merge further records, so unrestricted
idempotence fails in both stores. -/
theorem C5_theorem (X : List SemanticRule) (Y : List ProceduralStrategy)
    (hXn : ∀ r ∈ consolidateRules X, normalizeRuleStruct r = some r)
    (hXp : List.Pairwise (fun a b => isSimilarRule a b = false) (consolidateRules X))
    (hYn : ∀ s ∈ consolidateStrategies Y, normalizeStrategyStruct s = some s)
    (hYp : List.Pairwise (fun a b => isSimilarStrategy a b = false) (consolidateStrategies Y)) :
    consolidateRules (consolidateRules X) = consolidateRules X ∧
    consolidateStrategies (consolidateStrategies Y) = consolidateStrategies Y :=
  ⟨consolidateRules_fix hXn hXp, consolidateStrategies_fix hYn hYp⟩

set_option maxRecDepth 100000 in
/-- C5, witness: the amended theorem applied to stores of two clearly
dissimilar records. -/
theorem C5_witness :
    consolidateRules (consolidateRules
        [⟨"check all inputs", "", Rat.divInt 1 2, 1⟩,
         ⟨"log every failure", "", Rat.divInt 1 2, 1⟩])
      = consolidateRules
        [⟨"check all inputs", "", Rat.divInt 1 2, 1⟩,
         ⟨"log every failure", "", Rat.divInt 1 2, 1⟩] ∧
    consolidateStrategies (consolidateStrategies
        [⟨"retry politely", "network", ["wait", "retry"], Rat.divInt 1 2, 1⟩])
      = consolidateStrategies
        [⟨"retry politely", "network", ["wait", "retry"], Rat.divInt 1 2, 1⟩] :=
  C5_theorem
    [⟨"check all inputs", "", Rat.divInt 1 2, 1⟩,
     ⟨"log every failure", "", Rat.divInt 1 2, 1⟩]
    [⟨"retry politely", "network", ["wait", "retry"], Rat.divInt 1 2, 1⟩]
    (by decide) (by decide) (by decide) (by decide)

/-! ### Claim C8 -/

theorem normalizeRule_eq_none {v : PyVal}
    (h : (∀ s, v.get "rule" = .pstr s → pyStrip s = "") ∨
         pyFloat? (v.get "confidence") = none ∨
         pyInt? (v.get "derived_from") = none) :
    normalizeRule v = none := by
  unfold normalizeRule
  cases v with
  | pnone => rfl
  | pbool b => rfl
  | pint n => rfl
  | pfloat q => rfl
  | pstr s => rfl
  | plist xs => rfl
  | pdict fields =>
    rcases hrv : PyVal.get (PyVal.pdict fields) "rule" with _ | b | n | q | s | xs | fs
    case pstr =>
      simp only [hrv]
      by_cases hs : pyStrip s = ""
      · rw [if_pos hs]
      · rw [if_neg hs]
        rcases h with h1 | h2 | h3
        · exact absurd (h1 s hrv) hs
        · simp only [h2]
        · rcases hcf : pyFloat? (PyVal.get (PyVal.pdict fields) "confidence") with _ | cq
          · simp only [hcf]
          · simp only [hcf, h3]
    all_goals simp only [hrv]

theorem normalizeStrategy_eq_none {v : PyVal}
    (h : (∀ s, v.get "strategy_name" = .pstr s → pyStrip s = "") ∨
         normalizeSteps (v.get "steps_template") = none ∨
         pyFloat? (v.get "confidence") = none ∨
         pyInt? (v.get "derived_from") = none) :
    normalizeStrategy v = none := by
  unfold normalizeStrategy
  cases v with
  | pnone => rfl
  | pbool b => rfl
  | pint n => rfl
  | pfloat q => rfl
  | pstr s => rfl
  | plist xs => rfl
  | pdict fields =>
    rcases hrv : PyVal.get (PyVal.pdict fields) "strategy_name" with _ | b | n | q | s | xs | fs
    case pstr =>
      simp only [hrv]
      by_cases hs : pyStrip s = ""
      · rw [if_pos hs]
      · rw [if_neg hs]
        rcases h with h1 | h2 | h3 | h4
        · exact absurd (h1 s hrv) hs
        · simp only [h2]
        · rcases hst : normalizeSteps (PyVal.get (PyVal.pdict fields) "steps_template")
            with _ | steps
          · simp only [hst]
          · simp only [hst, h3]
        · rcases hst : normalizeSteps (PyVal.get (PyVal.pdict fields) "steps_template")
            with _ | steps
          · simp only [hst]
          · simp only [hst]
            rcases hcf : pyFloat? (PyVal.get (PyVal.pdict fields) "confidence") with _ | cq
            · simp only [hcf]
            · simp only [hcf, h4]
    all_goals simp only [hrv]

/-- C8: saving an invalid record is a no-op in both stores: a semantic rule
with blank rule text or an uncoercible `confidence`/`derived_from`, and a
procedural strategy with blank name, invalid or effectively empty steps or
uncoercible numeric fields, are rejected without any write to the store
file. -/
theorem C8_theorem (rd sd : PyVal) (linesS linesP : List (Option PyVal))
    (hsem : (∀ s, rd.get "rule" = .pstr s → pyStrip s = "") ∨
            pyFloat? (rd.get "confidence") = none ∨
            pyInt? (rd.get "derived_from") = none)
    (hproc : (∀ s, sd.get "strategy_name" = .pstr s → pyStrip s = "") ∨
             normalizeSteps (sd.get "steps_template") = none ∨
             pyFloat? (sd.get "confidence") = none ∨
             pyInt? (sd.get "derived_from") = none) :
    saveSemanticRuleWrite rd linesS = none ∧
    saveProceduralStrategyWrite sd linesP = none := by
  constructor
  · unfold saveSemanticRuleWrite
    rw [normalizeRule_eq_none hsem]
  · unfold saveProceduralStrategyWrite
    rw [normalizeStrategy_eq_none hproc]

/-- C8, witness: a rule whose confidence is a non-numeric string and a
strategy whose steps are all blank are both rejected without touching a
non-trivial store file. -/
theorem C8_witness :
    saveSemanticRuleWrite c8BadRule [some c2RuleDict] = none ∧
    saveProceduralStrategyWrite c8BadStrat [some c2StratDict] = none :=
  C8_theorem c8BadRule c8BadStrat [some c2RuleDict] [some c2StratDict]
    (Or.inr (Or.inl (by decide)))
    (Or.inr (Or.inl (by decide)))

/-! ### Claim C9 -/

set_option maxRecDepth 100000 in
/-- C9, counterexample: the semantic store's save accepts and persists a rule
whose text is 201 characters long — the store itself enforces no 200-character
bound. -/
theorem C9_counterexample :
    (saveSemanticRuleWrite c9LongRule []).map (fun rs => rs.map (fun r => r.rule.length))
      = some [201] := by
  decide

theorem strTake_length_le (s : String) (n : ℕ) : (strTake s n).length ≤ n := by
  show (s.data.take n).length ≤ n
  simp

theorem pyRstrip_length_le (s : String) : (pyRstrip s).length ≤ s.length := by
  show ((s.data.reverse.dropWhile isPyWs).reverse).length ≤ s.data.length
  rw [List.length_reverse]
  calc (s.data.reverse.dropWhile isPyWs).length ≤ s.data.reverse.length :=
        (List.IsSuffix.sublist (List.dropWhile_suffix _)).length_le
    _ = s.data.length := List.length_reverse _

/-- C9, amended: the 200-character bound on rule text is enforced by the
semantic extractor's normalization, which truncates long rules; the store's
own save/load persist rule text at whatever length it arrives. -/
theorem C9_theorem (v : PyVal) (d : ℤ) (r : SemanticRule)
    (h : extractorNormalizeRule v d = some r) : r.rule.length ≤ 200 := by
  unfold extractorNormalizeRule at h
  cases v with
  | pnone => exact Option.noConfusion h
  | pbool b => exact Option.noConfusion h
  | pint n => exact Option.noConfusion h
  | pfloat q => exact Option.noConfusion h
  | pstr s => exact Option.noConfusion h
  | plist xs => exact Option.noConfusion h
  | pdict fields =>
    rcases hrv : PyVal.get (PyVal.pdict fields) "rule" with _ | b | n | q | s | xs | fs
    case pstr =>
      simp only [hrv] at h
      by_cases hs : pyStrip s = ""
      · rw [if_pos hs] at h
        exact Option.noConfusion h
      · rw [if_neg hs] at h
        rcases hcf : pyFloat? (PyVal.get (PyVal.pdict fields) "confidence") with _ | cq
        · rw [hcf] at h
          exact Option.noConfusion h
        · rw [hcf] at h
          have hr := Option.some.inj h
          have hrule : r.rule = if 200 < (pyStrip s).length
              then pyRstrip (strTake (pyStrip s) 200) else pyStrip s := by
            rw [← hr]
          rw [hrule]
          by_cases hlen : 200 < (pyStrip s).length
          · rw [if_pos hlen]
            exact le_trans (pyRstrip_length_le _) (strTake_length_le _ _)
          · rw [if_neg hlen]
            omega
    all_goals simp only [hrv] at h
    all_goals exact Option.noConfusion h

/-- C9, witness: the amended theorem applied to a concrete extracted rule. -/
theorem C9_witness :
    extractorNormalizeRule c9ExtractDict 3
        = some ⟨"keep inputs clean", "", Rat.divInt 1 2, 3⟩ ∧
    (SemanticRule.mk "keep inputs clean" "" (Rat.divInt 1 2) 3).rule.length ≤ 200 :=
  ⟨by decide, C9_theorem c9ExtractDict 3 _ (by decide)⟩

/-! ### Claim C6 -/

/-- C6: hybrid retrieval is fail-closed.  With `topK ≤ 0` or an
empty trimmed query it returns the empty list having made zero remote
embedding calls (for any store contents and any oracle); and when the query
embedding call raises or returns an empty vector it returns the empty
list. -/
theorem C6_theorem (cos : List ℚ → List ℚ → ℚ) (oracle : String → Option (List ℚ))
    (sem : List SemanticRule) (proc : List ProceduralStrategy)
    (epi : List EpisodicRecord) (task goal : String) (topK : ℤ) :
    (topK ≤ 0 → retrieveRelevantMemory cos oracle sem proc epi task goal topK = ([], 0)) ∧
    (pyStrip (pyStrip task ++ " " ++ pyStrip goal) = "" →
      retrieveRelevantMemory cos oracle sem proc epi task goal topK = ([], 0)) ∧
    (((embedCall oracle (pyStrip (pyStrip task ++ " " ++ pyStrip goal))).1 = none ∨
      (embedCall oracle (pyStrip (pyStrip task ++ " " ++ pyStrip goal))).1 = some []) →
      (retrieveRelevantMemory cos oracle sem proc epi task goal topK).1 = []) := by
  refine ⟨?_, ?_, ?_⟩
  · intro h
    unfold retrieveRelevantMemory
    rw [if_pos h]
  · intro h
    unfold retrieveRelevantMemory
    by_cases hk : topK ≤ 0
    · rw [if_pos hk]
    · rw [if_neg hk, if_pos h]
  · intro h
    unfold retrieveRelevantMemory
    by_cases hk : topK ≤ 0
    · rw [if_pos hk]
    · rw [if_neg hk]
      by_cases hq : pyStrip (pyStrip task ++ " " ++ pyStrip goal) = ""
      · rw [if_pos hq]
      · rw [if_neg hq]
        rcases hec : embedCall oracle (pyStrip (pyStrip task ++ " " ++ pyStrip goal))
          with ⟨res, n⟩
        rw [hec] at h
        rcases res with _ | qe
        · rfl
        · have hqe : qe = [] := by
            rcases h with h | h
            · exact Option.noConfusion h
            · exact Option.some.inj h
          subst hqe
          simp

/-- C6, witness: retrieval at `topK = 0`, at an all-whitespace query, and
under an embedding oracle that raises, all return the empty list (the first
two with zero remote calls). -/
theorem C6_witness :
    retrieveRelevantMemory (fun _ _ => (0 : ℚ)) (fun _ => (none : Option (List ℚ)))
        [] [] [] "x" "y" 0 = ([], 0) ∧
    retrieveRelevantMemory (fun _ _ => (0 : ℚ)) (fun _ => (none : Option (List ℚ)))
        [] [] [] " " "" 5 = ([], 0) ∧
    (retrieveRelevantMemory (fun _ _ => (0 : ℚ)) (fun _ => (none : Option (List ℚ)))
        [] [] [] "x" "y" 5).1 = [] :=
  ⟨(C6_theorem (fun _ _ => 0) (fun _ => none) [] [] [] "x" "y" 0).1 (by decide),
   (C6_theorem (fun _ _ => 0) (fun _ => none) [] [] [] " " "" 5).2.1 (by decide),
   (C6_theorem (fun _ _ => 0) (fun _ => none) [] [] [] "x" "y" 5).2.2 (Or.inl (by decide))⟩

/-! ### Claim C4 -/

theorem mergeThread_fst_pos {e inc : SemanticRule} (rest : List SemanticRule)
    (h : isSimilarRule e inc = true) :
    (mergeThread inc (e :: rest)).1 = (mergeThread (mergeRule e inc "" "") rest).1 := by
  simp only [mergeThread]
  rw [if_pos h]

theorem mergeThread_snd_pos {e inc : SemanticRule} (rest : List SemanticRule)
    (h : isSimilarRule e inc = true) :
    (mergeThread inc (e :: rest)).2 = true :: (mergeThread (mergeRule e inc "" "") rest).2 := by
  simp only [mergeThread]
  rw [if_pos h]

theorem mergeThread_fst_neg {e inc : SemanticRule} (rest : List SemanticRule)
    (h : isSimilarRule e inc = false) :
    (mergeThread inc (e :: rest)).1 = (mergeThread inc rest).1 := by
  simp only [mergeThread]
  rw [if_neg (by simp [h])]

theorem mergeThread_snd_neg {e inc : SemanticRule} (rest : List SemanticRule)
    (h : isSimilarRule e inc = false) :
    (mergeThread inc (e :: rest)).2 = false :: (mergeThread inc rest).2 := by
  simp only [mergeThread]
  rw [if_neg (by simp [h])]

theorem foldAll_fst_pos {e inc : SemanticRule} (rest : List SemanticRule)
    (h : isSimilarRule e inc = true) :
    (foldAllMatches (e :: rest) inc).1 = (foldAllMatches rest (mergeRule e inc "" "")).1 := by
  simp only [foldAllMatches]
  rw [if_pos h]

theorem foldAll_surv_pos {e inc : SemanticRule} (rest : List SemanticRule)
    (h : isSimilarRule e inc = true) :
    (foldAllMatches (e :: rest) inc).2.1
      = (foldAllMatches rest (mergeRule e inc "" "")).2.1 := by
  simp only [foldAllMatches]
  rw [if_pos h]

theorem foldAll_fst_neg {e inc : SemanticRule} (rest : List SemanticRule)
    (h : isSimilarRule e inc = false) :
    (foldAllMatches (e :: rest) inc).1 = (foldAllMatches rest inc).1 := by
  simp only [foldAllMatches]
  rw [if_neg (by simp [h])]

theorem foldAll_surv_neg {e inc : SemanticRule} (rest : List SemanticRule)
    (h : isSimilarRule e inc = false) :
    (foldAllMatches (e :: rest) inc).2.1 = e :: (foldAllMatches rest inc).2.1 := by
  simp only [foldAllMatches]
  rw [if_neg (by simp [h])]

theorem rebuildMerged_cons_true (e : SemanticRule) (rest : List SemanticRule)
    (mask : List Bool) (m : SemanticRule) :
    rebuildMerged (e :: rest) (true :: mask) m false = m :: rebuildMerged rest mask m true := rfl

theorem rebuildMerged_cons_true_placed (e : SemanticRule) (rest : List SemanticRule)
    (mask : List Bool) (m : SemanticRule) :
    rebuildMerged (e :: rest) (true :: mask) m true = rebuildMerged rest mask m true := rfl

theorem rebuildMerged_cons_false (e : SemanticRule) (rest : List SemanticRule)
    (mask : List Bool) (m : SemanticRule) (placed : Bool) :
    rebuildMerged (e :: rest) (false :: mask) m placed
      = e :: rebuildMerged rest mask m placed := rfl

theorem specFold_cons_pos {e inc : SemanticRule} (rest : List SemanticRule)
    (h : isSimilarRule e inc = true) :
    semanticSaveFoldSpec (e :: rest) inc
      = (foldAllMatches rest (mergeRule e inc "" "")).1
          :: (foldAllMatches rest (mergeRule e inc "" "")).2.1 := by
  simp only [semanticSaveFoldSpec]
  rw [if_pos h]

theorem specFold_cons_neg {e inc : SemanticRule} (rest : List SemanticRule)
    (h : isSimilarRule e inc = false) :
    semanticSaveFoldSpec (e :: rest) inc = e :: semanticSaveFoldSpec rest inc := by
  simp only [semanticSaveFoldSpec]
  rw [if_neg (by simp [h])]

theorem mergeIncoming_def (ex : List SemanticRule) (inc : SemanticRule) :
    mergeIncomingWithExisting ex inc =
      if (mergeThread inc ex).2.all (fun b => !b)
      then ex ++ [inc]
      else rebuildMerged ex (mergeThread inc ex).2 (mergeThread inc ex).1 false := rfl

/-- The survivors computed by the spec-side fold agree with the source's
rebuild loop (after the first match has been placed), and the merged values
agree. -/
theorem foldAllMatches_agrees (l : List SemanticRule) :
    ∀ inc0 m', (foldAllMatches l inc0).1 = (mergeThread inc0 l).1 ∧
      (foldAllMatches l inc0).2.1 = rebuildMerged l (mergeThread inc0 l).2 m' true := by
  induction l with
  | nil => exact fun inc0 m' => ⟨rfl, rfl⟩
  | cons e rest ih =>
    intro inc0 m'
    cases hsim : isSimilarRule e inc0 with
    | true =>
      obtain ⟨ih1, ih2⟩ := ih (mergeRule e inc0 "" "") m'
      rw [foldAll_fst_pos rest hsim, foldAll_surv_pos rest hsim,
          mergeThread_fst_pos rest hsim, mergeThread_snd_pos rest hsim,
          rebuildMerged_cons_true_placed]
      exact ⟨ih1, ih2⟩
    | false =>
      obtain ⟨ih1, ih2⟩ := ih inc0 m'
      rw [foldAll_fst_neg rest hsim, foldAll_surv_neg rest hsim,
          mergeThread_fst_neg rest hsim, mergeThread_snd_neg rest hsim,
          rebuildMerged_cons_false]
      exact ⟨ih1, by rw [ih2]⟩

/-- When no slot matches during the thread, the spec-side fold appends. -/
theorem specFold_no_match {l : List SemanticRule} {inc : SemanticRule}
    (h : (mergeThread inc l).2.all (fun b => !b) = true) :
    semanticSaveFoldSpec l inc = l ++ [inc] := by
  induction l with
  | nil => rfl
  | cons e rest ih =>
    cases hsim : isSimilarRule e inc with
    | true =>
      rw [mergeThread_snd_pos rest hsim] at h
      simp at h
    | false =>
      rw [mergeThread_snd_neg rest hsim] at h
      simp only [List.all_cons, Bool.not_false, Bool.true_and] at h
      rw [specFold_cons_neg rest hsim, ih h]
      rfl

/-- Source `_merge_incoming_with_existing` is exactly the spec-side all-matches
fold. -/
theorem mergeIncoming_eq_spec (ex : List SemanticRule) :
    ∀ inc, mergeIncomingWithExisting ex inc = semanticSaveFoldSpec ex inc := by
  induction ex with
  | nil => intro inc; rfl
  | cons e rest ih =>
    intro inc
    cases hsim : isSimilarRule e inc with
    | true =>
      rw [mergeIncoming_def, mergeThread_snd_pos rest hsim, mergeThread_fst_pos rest hsim,
          specFold_cons_pos rest hsim]
      simp only [List.all_cons, Bool.not_true, Bool.false_and, Bool.false_eq_true,
        if_false, ite_false]
      rw [rebuildMerged_cons_true]
      obtain ⟨h1, h2⟩ := foldAllMatches_agrees rest (mergeRule e inc "" "")
        (mergeThread (mergeRule e inc "" "") rest).1
      rw [h1, h2]
    | false =>
      rw [mergeIncoming_def, mergeThread_snd_neg rest hsim, mergeThread_fst_neg rest hsim,
          specFold_cons_neg rest hsim]
      cases hall : (mergeThread inc rest).2.all (fun b => !b) with
      | true =>
        simp only [List.all_cons, Bool.not_false, Bool.true_and, hall, if_true, ite_true]
        rw [← ih inc, mergeIncoming_def, if_pos hall]
        rfl
      | false =>
        simp only [List.all_cons, Bool.not_false, Bool.true_and, hall, Bool.false_eq_true,
          if_false, ite_false]
        rw [rebuildMerged_cons_false, ← ih inc, mergeIncoming_def, if_neg (by simp [hall])]

theorem consolidateStrategiesAux_append (xs ys : List ProceduralStrategy) :
    ∀ acc, consolidateStrategiesAux acc (xs ++ ys)
      = consolidateStrategiesAux (consolidateStrategiesAux acc xs) ys := by
  induction xs with
  | nil => intro acc; rfl
  | cons x rest ih =>
    intro acc
    show consolidateStrategiesAux acc (x :: (rest ++ ys)) = _
    simp only [consolidateStrategiesAux]
    rcases hn : normalizeStrategyStruct x with _ | n
    · simp only [hn]
      exact ih acc
    · simp only [hn]
      rcases hm : mergeFirstSimilarStrategy acc n with _ | acc'
      · simp only [hm]
        exact ih (acc ++ [n])
      · simp only [hm]
        exact ih acc'

theorem mergeFirstSimilarStrategySpec_eq (l : List ProceduralStrategy)
    (n : ProceduralStrategy) :
    mergeFirstSimilarStrategySpec l n =
      match mergeFirstSimilarStrategy l n with
      | some l' => l'
      | none => l ++ [n] := by
  induction l with
  | nil => rfl
  | cons e rest ih =>
    cases hsim : isSimilarStrategy e n with
    | true =>
      simp only [mergeFirstSimilarStrategySpec, mergeFirstSimilarStrategy, hsim]
      simp
    | false =>
      simp only [mergeFirstSimilarStrategySpec, mergeFirstSimilarStrategy, hsim,
        Bool.false_eq_true, if_false, ite_false]
      rw [ih]
      rcases mergeFirstSimilarStrategy rest n with _ | rest'
      · rfl
      · rfl

/-- C4: the semantic save folds the incoming rule into every matching slot,
collapsing all matches into the first match's position (appending when
nothing matches), while the procedural save — on an already consolidated
store — merges the incoming strategy into at most the first matching slot,
appending when nothing matches. -/
theorem C4_theorem (ex : List SemanticRule) (inc : SemanticRule)
    (cur : List ProceduralStrategy) (inc2 : ProceduralStrategy)
    (hfix : consolidateStrategies cur = cur)
    (hn : normalizeStrategyStruct inc2 = some inc2) :
    mergeIncomingWithExisting ex inc = semanticSaveFoldSpec ex inc ∧
    consolidateStrategies (cur ++ [inc2]) = mergeFirstSimilarStrategySpec cur inc2 := by
  refine ⟨mergeIncoming_eq_spec ex inc, ?_⟩
  have h1 : consolidateStrategies (cur ++ [inc2])
      = consolidateStrategiesAux cur [inc2] := by
    show consolidateStrategiesAux [] (cur ++ [inc2]) = _
    rw [consolidateStrategiesAux_append]
    show consolidateStrategiesAux (consolidateStrategies cur) [inc2] = _
    rw [hfix]
  rw [h1, mergeFirstSimilarStrategySpec_eq]
  simp only [consolidateStrategiesAux, hn]

/-- C4, witness: the theorem applied at a two-slot semantic store whose both
slots match the incoming rule, and at a consolidated one-slot procedural
store matching the incoming strategy. -/
theorem C4_witness :
    consolidateStrategies [⟨"fetch data", "api", ["call"], Rat.divInt 1 2, 1⟩]
        = [⟨"fetch data", "api", ["call"], Rat.divInt 1 2, 1⟩] ∧
    normalizeStrategyStruct ⟨"fetch data", "api", ["parse"], Rat.divInt 1 2, 1⟩
        = some ⟨"fetch data", "api", ["parse"], Rat.divInt 1 2, 1⟩ ∧
    (mergeIncomingWithExisting
        [⟨"x y z", "", Rat.divInt 1 2, 1⟩, ⟨"x y z w", "", Rat.divInt 1 2, 1⟩]
        ⟨"x y z", "", Rat.divInt 1 2, 1⟩
      = semanticSaveFoldSpec
        [⟨"x y z", "", Rat.divInt 1 2, 1⟩, ⟨"x y z w", "", Rat.divInt 1 2, 1⟩]
        ⟨"x y z", "", Rat.divInt 1 2, 1⟩ ∧
     consolidateStrategies ([⟨"fetch data", "api", ["call"], Rat.divInt 1 2, 1⟩]
          ++ [⟨"fetch data", "api", ["parse"], Rat.divInt 1 2, 1⟩])
      = mergeFirstSimilarStrategySpec [⟨"fetch data", "api", ["call"], Rat.divInt 1 2, 1⟩]
          ⟨"fetch data", "api", ["parse"], Rat.divInt 1 2, 1⟩) :=
  ⟨by decide, by decide,
   C4_theorem [⟨"x y z", "", Rat.divInt 1 2, 1⟩, ⟨"x y z w", "", Rat.divInt 1 2, 1⟩]
     ⟨"x y z", "", Rat.divInt 1 2, 1⟩
     [⟨"fetch data", "api", ["call"], Rat.divInt 1 2, 1⟩]
     ⟨"fetch data", "api", ["parse"], Rat.divInt 1 2, 1⟩
     (by decide) (by decide)⟩

/-! ### Claim C7 -/

theorem similarityScore_eq_amended (e : EpisodicRecord) (task goal : String) :
    similarityScore e task goal = amendedSimilarityScore e task goal := by
  have hcomp : ∀ q r : String,
      (if q ≠ "" ∧ q = r then (4 : ℚ)
       else if q ≠ "" ∧ (strIn q r ∨ strIn r q) then 2 else 0)
      = amendedComponentScore q r := by
    intro q r
    unfold amendedComponentScore
    by_cases h1 : q = ""
    · subst h1
      simp
    · by_cases h2 : q = r
      · subst h2
        simp [h1]
      · simp [h1, h2]
  simp only [similarityScore, amendedSimilarityScore]
  rw [hcomp, hcomp]

/-- C7, counterexample: on a record whose task, goal and result are all
empty, a query with empty task and goal scores 0 in the source (excluded),
while the claim's scoring — 4 for an exact normalized task match and 4 for
the goal match — returns the record; the code awards the match components
only for a non-empty query text. -/
theorem C7_counterexample :
    findSimilarExperiences [c7Empty] "" "" 5 = [] ∧
    claimedFindSimilar [c7Empty] "" "" 5 = [c7Empty] :=
  ⟨rfl, rfl⟩

/-- C7, amended: the episodic similarity search behaves exactly as claimed —
score 4 for an exact normalized match and 2 for a substring relation on task
and goal, plus shared keyword tokens of length > 2, excluding scores ≤ 0 and
ordering by score, then success, then timestamp, truncated to `limit` — with
the proviso that the task (resp. goal) component is awarded only when the
query's normalized task (resp. goal) text is non-empty. -/
theorem C7_theorem (exps : List EpisodicRecord) (task goal : String) (limit : ℤ) :
    findSimilarExperiences exps task goal limit = amendedFindSimilar exps task goal limit := by
  unfold findSimilarExperiences amendedFindSimilar
  by_cases hl : limit ≤ 0
  · rw [if_pos hl, Int.toNat_of_nonpos hl]
    simp
  · rw [if_neg hl]
    simp only [similarityScore_eq_amended]

/-! ### Claim C10 -/

theorem episodicCandidates_fold (cos : List ℚ → List ℚ → ℚ)
    (oracle : String → Option (List ℚ)) (qe : List ℚ) :
    ∀ (records : List EpisodicRecord) (acc : List Candidate × ℕ),
      (List.foldl (fun acc e =>
        let text := episodicEmbeddingText e
        let res := ensureEmbedding oracle e.embedding text
        let conf : ℚ := if e.success then Rat.divInt 9 10 else Rat.divInt 4 10
        (acc.1 ++ [⟨"episodic", conf, max 0 (attemptsAsInt e.attempts), cos qe res.1, text⟩],
         acc.2 + res.2.2)) acc records).1
      = acc.1 ++ records.map (fun e =>
          ⟨"episodic", if e.success then Rat.divInt 9 10 else Rat.divInt 4 10,
           max 0 (attemptsAsInt e.attempts),
           cos qe (ensureEmbedding oracle e.embedding (episodicEmbeddingText e)).1,
           episodicEmbeddingText e⟩) := by
  intro records
  induction records with
  | nil => intro acc; simp
  | cons r rest ih =>
    intro acc
    simp only [List.foldl_cons, List.map_cons]
    rw [ih]
    simp

theorem episodicCandidates_eq (cos : List ℚ → List ℚ → ℚ)
    (oracle : String → Option (List ℚ)) (qe : List ℚ) (records : List EpisodicRecord) :
    (episodicCandidates cos oracle qe records).1
      = records.map (fun e =>
          ⟨"episodic", if e.success then Rat.divInt 9 10 else Rat.divInt 4 10,
           max 0 (attemptsAsInt e.attempts),
           cos qe (ensureEmbedding oracle e.embedding (episodicEmbeddingText e)).1,
           episodicEmbeddingText e⟩) := by
  unfold episodicCandidates
  rw [episodicCandidates_fold]
  simp

theorem semanticCandidates_fold (cos : List ℚ → List ℚ → ℚ)
    (oracle : String → Option (List ℚ)) (qe : List ℚ) :
    ∀ (rules : List SemanticRule) (acc : List Candidate × ℕ),
      (List.foldl (fun acc r =>
        let text := semanticEmbeddingText r
        let res := ensureEmbedding oracle .pnone text
        (acc.1 ++ [⟨"semantic", r.confidence, max 0 r.derived_from, cos qe res.1, text⟩],
         acc.2 + res.2.2)) acc rules).1
      = acc.1 ++ rules.map (fun r =>
          ⟨"semantic", r.confidence, max 0 r.derived_from,
           cos qe (ensureEmbedding oracle .pnone (semanticEmbeddingText r)).1,
           semanticEmbeddingText r⟩) := by
  intro rules
  induction rules with
  | nil => intro acc; simp
  | cons r rest ih =>
    intro acc
    simp only [List.foldl_cons, List.map_cons]
    rw [ih]
    simp

theorem semanticCandidates_eq (cos : List ℚ → List ℚ → ℚ)
    (oracle : String → Option (List ℚ)) (qe : List ℚ) (rules : List SemanticRule) :
    (semanticCandidates cos oracle qe rules).1
      = rules.map (fun r =>
          ⟨"semantic", r.confidence, max 0 r.derived_from,
           cos qe (ensureEmbedding oracle .pnone (semanticEmbeddingText r)).1,
           semanticEmbeddingText r⟩) := by
  unfold semanticCandidates
  rw [semanticCandidates_fold]
  simp

theorem proceduralCandidates_fold (cos : List ℚ → List ℚ → ℚ)
    (oracle : String → Option (List ℚ)) (qe : List ℚ) :
    ∀ (strategies : List ProceduralStrategy) (acc : List Candidate × ℕ),
      (List.foldl (fun acc st =>
        let text := proceduralEmbeddingText st
        let res := ensureEmbedding oracle .pnone text
        (acc.1 ++ [⟨"procedural", st.confidence, max 0 st.derived_from, cos qe res.1, text⟩],
         acc.2 + res.2.2)) acc strategies).1
      = acc.1 ++ strategies.map (fun st =>
          ⟨"procedural", st.confidence, max 0 st.derived_from,
           cos qe (ensureEmbedding oracle .pnone (proceduralEmbeddingText st)).1,
           proceduralEmbeddingText st⟩) := by
  intro strategies
  induction strategies with
  | nil => intro acc; simp
  | cons st rest ih =>
    intro acc
    simp only [List.foldl_cons, List.map_cons]
    rw [ih]
    simp

theorem proceduralCandidates_eq (cos : List ℚ → List ℚ → ℚ)
    (oracle : String → Option (List ℚ)) (qe : List ℚ)
    (strategies : List ProceduralStrategy) :
    (proceduralCandidates cos oracle qe strategies).1
      = strategies.map (fun st =>
          ⟨"procedural", st.confidence, max 0 st.derived_from,
           cos qe (ensureEmbedding oracle .pnone (proceduralEmbeddingText st)).1,
           proceduralEmbeddingText st⟩) := by
  unfold proceduralCandidates
  rw [proceduralCandidates_fold]
  simp

theorem foldl_max_le_init (xs : List Candidate) :
    ∀ a : ℤ, a ≤ xs.foldl (fun m c => max m c.derived_from) a := by
  induction xs with
  | nil => intro a; exact le_refl a
  | cons x rest ih =>
    intro a
    simp only [List.foldl_cons]
    exact le_trans (le_max_left a x.derived_from) (ih (max a x.derived_from))

theorem mem_le_foldl_max (xs : List Candidate) :
    ∀ (a : ℤ) (c : Candidate), c ∈ xs →
      c.derived_from ≤ xs.foldl (fun m c => max m c.derived_from) a := by
  induction xs with
  | nil =>
    intro a c hc
    exact absurd hc (List.not_mem_nil c)
  | cons x rest ih =>
    intro a c hc
    simp only [List.foldl_cons]
    rcases List.mem_cons.mp hc with h | h
    · subst h
      exact le_trans (le_max_right a c.derived_from) (foldl_max_le_init rest _)
    · exact ih (max a x.derived_from) c h

theorem mem_le_maxDerivedOf {l : List Candidate} {c : Candidate} (hc : c ∈ l) :
    c.derived_from ≤ maxDerivedOf l := by
  cases l with
  | nil => exact absurd hc (List.not_mem_nil c)
  | cons x xs =>
    unfold maxDerivedOf
    rcases List.mem_cons.mp hc with h | h
    · subst h
      exact foldl_max_le_init xs _
    · exact mem_le_foldl_max xs x.derived_from c h

/-- C10: every episodic retrieval candidate carries the record's raw
`attempts` value as its `derived_from` evidence count — clamped to be
non-negative and read as 0 when the stored value is not an integer (Python's
`isinstance(·, int)`, under which booleans count as integers) — and this
count is bounded by the normalization divisor computed over the combined
candidates of all three tiers, so episodic attempts participate in the
`derived_from` normalization. -/
theorem C10_theorem (cos : List ℚ → List ℚ → ℚ) (oracle : String → Option (List ℚ))
    (qe : List ℚ) (sem : List SemanticRule) (proc : List ProceduralStrategy)
    (epi : List EpisodicRecord) :
    (episodicCandidates cos oracle qe epi).1
      = epi.map (fun e =>
          ⟨"episodic", if e.success then Rat.divInt 9 10 else Rat.divInt 4 10,
           max 0 (match e.attempts with
                  | .pint n => n
                  | .pbool b => if b then 1 else 0
                  | _ => 0),
           cos qe (ensureEmbedding oracle e.embedding (episodicEmbeddingText e)).1,
           episodicEmbeddingText e⟩) ∧
    ∀ c ∈ (episodicCandidates cos oracle qe epi).1,
      c.derived_from ≤
        (if maxDerivedOf ((semanticCandidates cos oracle qe sem).1
              ++ (proceduralCandidates cos oracle qe proc).1
              ++ (episodicCandidates cos oracle qe epi).1) ≤ 0 then 1
         else maxDerivedOf ((semanticCandidates cos oracle qe sem).1
              ++ (proceduralCandidates cos oracle qe proc).1
              ++ (episodicCandidates cos oracle qe epi).1)) := by
  constructor
  · rw [episodicCandidates_eq]
    rfl
  · intro c hc
    have hmem : c ∈ (semanticCandidates cos oracle qe sem).1
        ++ (proceduralCandidates cos oracle qe proc).1
        ++ (episodicCandidates cos oracle qe epi).1 := by
      exact List.mem_append_right _ hc
    have hM := mem_le_maxDerivedOf hmem
    by_cases h0 : maxDerivedOf ((semanticCandidates cos oracle qe sem).1
        ++ (proceduralCandidates cos oracle qe proc).1
        ++ (episodicCandidates cos oracle qe epi).1) ≤ 0
    · rw [if_pos h0]
      omega
    · rw [if_neg h0]
      exact hM

/-- C10, witness: the theorem applied to a store with a single episodic
record with three attempts. -/
theorem C10_witness :
    (episodicCandidates (fun _ _ => (0 : ℚ)) (fun _ => (none : Option (List ℚ)))
        [1] [c10Rec]).1 = [c10Cand] ∧
    c10Cand.derived_from ≤
      (if maxDerivedOf ((semanticCandidates (fun _ _ => (0 : ℚ))
            (fun _ => (none : Option (List ℚ))) [1] []).1
          ++ (proceduralCandidates (fun _ _ => (0 : ℚ))
            (fun _ => (none : Option (List ℚ))) [1] []).1
          ++ (episodicCandidates (fun _ _ => (0 : ℚ))
            (fun _ => (none : Option (List ℚ))) [1] [c10Rec]).1) ≤ 0 then 1
       else maxDerivedOf ((semanticCandidates (fun _ _ => (0 : ℚ))
            (fun _ => (none : Option (List ℚ))) [1] []).1
          ++ (proceduralCandidates (fun _ _ => (0 : ℚ))
            (fun _ => (none : Option (List ℚ))) [1] []).1
          ++ (episodicCandidates (fun _ _ => (0 : ℚ))
            (fun _ => (none : Option (List ℚ))) [1] [c10Rec]).1)) :=
  ⟨by
    rw [(C10_theorem (fun _ _ => 0) (fun _ => none) [1] [] [] [c10Rec]).1]
    rfl,
   (C10_theorem (fun _ _ => 0) (fun _ => none) [1] [] [] [c10Rec]).2 c10Cand (by decide)⟩

/-! ### Claim C3 -/

theorem foldl_max_eq_foldr (xs : List Candidate) :
    ∀ a : ℤ, 0 ≤ a → xs.foldl (fun m c => max m c.derived_from) a
      = max a ((xs.map (fun c => c.derived_from)).foldr max 0) := by
  induction xs with
  | nil =>
    intro a ha
    simp [max_eq_left ha]
  | cons x rest ih =>
    intro a ha
    simp only [List.foldl_cons, List.map_cons, List.foldr_cons]
    rw [ih (max a x.derived_from) (le_trans ha (le_max_left _ _)), max_assoc]

theorem foldr_max_nonneg (ds : List ℤ) : 0 ≤ ds.foldr max 0 := by
  induction ds with
  | nil => exact le_refl 0
  | cons d rest ih =>
    simp only [List.foldr_cons]
    exact le_trans ih (le_max_right d _)

/-- On candidate lists with non-negative evidence counts (as all tiers
produce), the source's divisor — `max(..., default=1)` patched to 1 when
non-positive — is the claim's `max(maximum derived_from, 1)`. -/
theorem maxDerived_eq (l : List Candidate) (h : ∀ c ∈ l, 0 ≤ c.derived_from) :
    (if maxDerivedOf l ≤ 0 then 1 else maxDerivedOf l) = max (maxDerivedSpec l) 1 := by
  cases l with
  | nil => rfl
  | cons x xs =>
    have hx : 0 ≤ x.derived_from := h x (List.mem_cons_self x xs)
    have heq : maxDerivedOf (x :: xs) = maxDerivedSpec (x :: xs) := by
      unfold maxDerivedOf maxDerivedSpec
      simp only [List.map_cons, List.foldr_cons]
      rw [foldl_max_eq_foldr xs x.derived_from hx]
    rw [heq]
    have h0 : 0 ≤ maxDerivedSpec (x :: xs) := by
      unfold maxDerivedSpec
      simp only [List.map_cons, List.foldr_cons]
      exact le_trans (foldr_max_nonneg _) (le_max_right x.derived_from _)
    by_cases hle : maxDerivedSpec (x :: xs) ≤ 0
    · rw [if_pos hle]
      have hz : maxDerivedSpec (x :: xs) = 0 := le_antisymm hle h0
      rw [hz]
      rfl
    · rw [if_neg hle]
      exact (max_eq_left (by omega)).symm

/-- C3: when the fail-closed guards pass, hybrid retrieval returns the first
`topK` of the combined candidates — semantic and procedural with their stored
confidence, episodic with 0.9 on success else 0.4 — sorted descending by
`rank_score = similarity*0.7 + confidence*0.2 + derived_from_normalized*0.1`,
where `derived_from_normalized = derived_from / max(maximum derived_from over
all candidates, 1)`. -/
theorem C3_theorem (cos : List ℚ → List ℚ → ℚ) (oracle : String → Option (List ℚ))
    (sem : List SemanticRule) (proc : List ProceduralStrategy) (epi : List EpisodicRecord)
    (task goal : String) (topK : ℤ) (qe : List ℚ) (n : ℕ) (combined : List Candidate)
    (hk : 0 < topK)
    (hq : pyStrip (pyStrip task ++ " " ++ pyStrip goal) ≠ "")
    (he : embedCall oracle (pyStrip (pyStrip task ++ " " ++ pyStrip goal)) = (some qe, n))
    (hqe : qe ≠ [])
    (hcomb : combined =
      sem.map (fun r => ⟨"semantic", r.confidence, max 0 r.derived_from,
          cos qe (ensureEmbedding oracle .pnone (semanticEmbeddingText r)).1,
          semanticEmbeddingText r⟩)
      ++ proc.map (fun st => ⟨"procedural", st.confidence, max 0 st.derived_from,
          cos qe (ensureEmbedding oracle .pnone (proceduralEmbeddingText st)).1,
          proceduralEmbeddingText st⟩)
      ++ epi.map (fun e => ⟨"episodic",
          if e.success then Rat.divInt 9 10 else Rat.divInt 4 10,
          max 0 (attemptsAsInt e.attempts),
          cos qe (ensureEmbedding oracle e.embedding (episodicEmbeddingText e)).1,
          episodicEmbeddingText e⟩)) :
    (retrieveRelevantMemory cos oracle sem proc epi task goal topK).1
      = List.take topK.toNat (sortDescBy rankGe (combined.map (fun c =>
          ⟨c, c.similarity_score * (7/10) + c.confidence * (2/10)
              + ((c.derived_from : ℚ) / (max (maxDerivedSpec combined) 1 : ℚ)) * (1/10),
           (c.derived_from : ℚ) / (max (maxDerivedSpec combined) 1 : ℚ)⟩))) := by
  have hnn : ∀ c ∈ combined, 0 ≤ c.derived_from := by
    intro c hcL
    rw [hcomb] at hcL
    rcases List.mem_append.mp hcL with h | h
    · rcases List.mem_append.mp h with h' | h'
      · obtain ⟨r, _, rfl⟩ := List.mem_map.mp h'
        exact le_max_left 0 _
      · obtain ⟨st, _, rfl⟩ := List.mem_map.mp h'
        exact le_max_left 0 _
    · obtain ⟨e, _, rfl⟩ := List.mem_map.mp h
      exact le_max_left 0 _
  have hdiv := maxDerived_eq combined hnn
  unfold retrieveRelevantMemory
  rw [if_neg (by omega : ¬ topK ≤ 0), if_neg hq]
  simp only [he]
  rw [if_neg hqe]
  rw [semanticCandidates_eq, proceduralCandidates_eq, episodicCandidates_eq, ← hcomb]
  by_cases hc : combined = []
  · rw [if_pos hc, hc]
    simp [sortDescBy]
  · rw [if_neg hc]
    have hmap : combined.map (fun c =>
        (⟨c, qadd (qadd (qmul c.similarity_score (Rat.divInt 7 10))
                        (qmul c.confidence (Rat.divInt 2 10)))
                  (qmul (qdiv (c.derived_from : ℚ)
                    ((if maxDerivedOf combined ≤ 0 then 1 else maxDerivedOf combined : ℤ) : ℚ))
                    (Rat.divInt 1 10)),
            qdiv (c.derived_from : ℚ)
              ((if maxDerivedOf combined ≤ 0 then 1 else maxDerivedOf combined : ℤ) : ℚ)⟩
          : RankedCandidate))
        = combined.map (fun c =>
          ⟨c, c.similarity_score * (7/10) + c.confidence * (2/10)
              + ((c.derived_from : ℚ) / (max (maxDerivedSpec combined) 1 : ℚ)) * (1/10),
           (c.derived_from : ℚ) / (max (maxDerivedSpec combined) 1 : ℚ)⟩) := by
      apply List.map_congr_left
      intro c _
      rw [hdiv]
      simp only [qadd_eq, qmul_eq, qdiv_eq, Rat.divInt_eq_div]
      norm_num
    rw [hmap]

/-- C3, witness: the theorem applied to a store holding one episodic record
at `topK = 2`. -/
theorem C3_witness :
    (retrieveRelevantMemory (fun _ _ => (0 : ℚ)) (fun _ => some [1]) [] [] [c10Rec]
        "a" "b" 2).1
      = List.take (2 : ℤ).toNat (sortDescBy rankGe ([c10Cand].map (fun c =>
          ⟨c, c.similarity_score * (7/10) + c.confidence * (2/10)
              + ((c.derived_from : ℚ) / (max (maxDerivedSpec [c10Cand]) 1 : ℚ)) * (1/10),
           (c.derived_from : ℚ) / (max (maxDerivedSpec [c10Cand]) 1 : ℚ)⟩))) :=
  C3_theorem (fun _ _ => 0) (fun _ => some [1]) [] [] [c10Rec] "a" "b" 2 [1] 1 [c10Cand]
    (by decide) (by decide) (by decide) (by decide) (by decide)

end MindBridge
